import Mathlib

/-!
Verification of the task-ordering and progress-tracking engine of the
simple-todo repository. The engine lives in
src/features/todos/hooks/useTodos.ts (task store and reorder algorithm),
src/features/todos/components/DailyTrackerModal.tsx (sub-task toggling),
and src/features/todos/components/DailyTrackingDashboard.tsx (streaks).
Each definition below is a direct shallow embedding of the corresponding
TypeScript function; theorems settle the specification claims about them.
-/

namespace TodoApp

/-- The four quadrants of the Eisenhower matrix (TodoPriority in todo.types.ts). -/
inductive TodoPriority where
  | urgentImportant
  | urgentUnimportant
  | unurgentImportant
  | unurgentUnimportant
deriving DecidableEq, Repr

/-- One checklist item of a daily task (entries of Todo.subTasks in todo.types.ts). -/
structure SubTask where
  id : String
  title : String
deriving DecidableEq, Repr

/-- One calendar day of progress for a daily task (DailyProgress in todo.types.ts). -/
structure DailyProgress where
  isCompleted : Bool
  completedSubTasks : List String
  notes : String
deriving DecidableEq, Repr

/-- A task record (Todo in todo.types.ts). Optional TypeScript fields become
Option; the dailyProgress record becomes an association list keyed by the
date string. -/
structure Todo where
  id : String
  title : String
  description : Option String
  priority : TodoPriority
  isCompleted : Bool
  order : Option Int
  createdAt : Int
  updatedAt : Int
  isDaily : Option Bool
  subTasks : Option (List SubTask)
  dailyProgress : Option (List (String × DailyProgress))
deriving DecidableEq, Repr

/-- Validated creation input (TodoFormValues from todo.schema.ts). -/
structure TodoFormValues where
  title : String
  description : Option String
  priority : TodoPriority
  isDaily : Option Bool
  subTasks : Option (List SubTask)
deriving DecidableEq, Repr

/-- JS expression t.order || 0 used throughout useTodos.ts: an absent order
reads as 0 (and an order of 0 also reads as 0). -/
def orderVal (t : Todo) : Int := t.order.getD 0

/-- JS Math.max over a nonempty argument list. -/
def mathMax (x : Int) (xs : List Int) : Int := xs.foldl max x

/-- addTodo from useTodos.ts lines 61-79: computes the order of the new task as
one past the maximum order (reading absent orders as 0) among tasks sharing
the input priority, or 0 when none exist (maxOrder starts at -1), then
prepends the freshly built task to the collection. The fresh id produced by
crypto.randomUUID and the Date.now timestamp are passed as parameters. -/
def addTodo (data : TodoFormValues) (freshId : String) (now : Int) (prev : List Todo) : List Todo :=
  let priorityTodos := prev.filter (fun t => t.priority = data.priority)
  let maxOrder : Int :=
    match priorityTodos.map orderVal with
    | [] => -1
    | x :: xs => mathMax x xs
  let newTodo : Todo :=
    { id := freshId, title := data.title, description := data.description,
      priority := data.priority, isCompleted := false, order := some (maxOrder + 1),
      createdAt := now, updatedAt := now, isDaily := none, subTasks := none,
      dailyProgress := none }
  newTodo :: prev

/-- A TypeScript Partial of Todo, as accepted by updateTodo: every field may be
present (overriding) or absent (keeping the old value). -/
structure TodoPartial where
  id : Option String := none
  title : Option String := none
  description : Option (Option String) := none
  priority : Option TodoPriority := none
  isCompleted : Option Bool := none
  order : Option (Option Int) := none
  createdAt : Option Int := none
  isDaily : Option (Option Bool) := none
  subTasks : Option (Option (List SubTask)) := none
  dailyProgress : Option (Option (List (String × DailyProgress))) := none
deriving DecidableEq, Repr

/-- The JS object spread in updateTodo: fields present in data override those
of t, and updatedAt is written last, so it is always stamped to now. -/
def mergeTodo (t : Todo) (data : TodoPartial) (now : Int) : Todo :=
  { id := data.id.getD t.id,
    title := data.title.getD t.title,
    description := data.description.getD t.description,
    priority := data.priority.getD t.priority,
    isCompleted := data.isCompleted.getD t.isCompleted,
    order := data.order.getD t.order,
    createdAt := data.createdAt.getD t.createdAt,
    updatedAt := now,
    isDaily := data.isDaily.getD t.isDaily,
    subTasks := data.subTasks.getD t.subTasks,
    dailyProgress := data.dailyProgress.getD t.dailyProgress }

/-- updateTodo from useTodos.ts lines 81-85: merges the given fields into the
task matching the id, leaving every other task untouched. -/
def updateTodo (id : String) (data : TodoPartial) (now : Int) (prev : List Todo) : List Todo :=
  prev.map (fun t => if t.id = id then mergeTodo t data now else t)

/-- deleteTodo from useTodos.ts lines 87-93: keeps exactly the tasks whose id
differs from the given id. -/
def deleteTodo (id : String) (prev : List Todo) : List Todo :=
  prev.filter (fun t => t.id ≠ id)

/-- toggleTodo from useTodos.ts lines 95-99: flips isCompleted of the matching
task and refreshes its updatedAt. -/
def toggleTodo (id : String) (now : Int) (prev : List Todo) : List Todo :=
  prev.map (fun t =>
    if t.id = id then { t with isCompleted := !t.isCompleted, updatedAt := now } else t)

/-- Comparator (a.order || 0) - (b.order || 0) of the JS sort calls, as a
relation. -/
def todoLe (a b : Todo) : Prop := orderVal a ≤ orderVal b

instance : DecidableRel todoLe := fun a b => by
  unfold todoLe
  infer_instance

instance : IsTotal Todo todoLe := ⟨fun a b => le_total (orderVal a) (orderVal b)⟩

instance : IsTrans Todo todoLe := ⟨fun _ _ _ h h' => le_trans h h'⟩

/-- The JS Array.prototype.sort with comparator (a.order||0)-(b.order||0).
JS sort is stable, so it is modeled by the stable insertion sort. -/
def sortByOrder (l : List Todo) : List Todo := List.insertionSort todoLe l

/-- getTodosByPriority from useTodos.ts lines 165-169: the tasks of one
quadrant, sorted ascending by order (absent read as 0), stably. -/
def getTodosByPriority (priority : TodoPriority) (todos : List Todo) : List Todo :=
  sortByOrder (todos.filter (fun t => t.priority = priority))

/-- JS list.splice(i, 1): removes the element at index i (removes nothing when
i is out of range). -/
def spliceRemove (i : Nat) (l : List Todo) : List Todo := l.take i ++ l.drop (i + 1)

/-- JS list.splice(i, 0, t): inserts t at index i, clamping to an append when
i exceeds the length. -/
def spliceInsert (i : Nat) (t : Todo) (l : List Todo) : List Todo :=
  l.take i ++ [t] ++ l.drop i

/-- The JS pattern newTodos.findIndex(nt => nt.id === t.id) followed by an
in-place replacement of that index: rewrites the first task carrying the
given id, and leaves the list unchanged when no index matches. -/
def updateFirstById (tid : String) (f : Todo → Todo) : List Todo → List Todo
  | [] => []
  | t :: ts => if t.id = tid then f t :: ts else t :: updateFirstById tid f ts

/-- The body of the forEach rewrite loops of reorderTodo: positional index i
becomes the new order, updatedAt is refreshed, and (in the destination loop
of a cross-quadrant move) the priority is overwritten. -/
def setRO (newPriority : Option TodoPriority) (i : Nat) (now : Int) (t : Todo) : Todo :=
  { t with order := some (i : Int), updatedAt := now,
           priority := newPriority.getD t.priority }

/-- The forEach((t, i) => ...) rewrite loops of reorderTodo, with i the running
positional index: each list element selects (by id) the first matching task of
the collection and rewrites it via setRO. -/
def rewriteFrom (newPriority : Option TodoPriority) (now : Int) (i : Nat) :
    List Todo → List Todo → List Todo
  | [], c => c
  | t :: ts, c =>
      rewriteFrom newPriority now (i + 1) ts (updateFirstById t.id (setRO newPriority i now) c)

/-- reorderTodo from useTodos.ts lines 101-163. The order-sorted source list is
read, the sanity check compares the task found at sourceIndex against todoId
(aborting as a no-op on mismatch), and then either the same-quadrant splice
path or the cross-quadrant splice path runs, each followed by the positional
order rewrite of every task in the affected list(s). -/
def reorderTodo (todoId : String) (sourcePriority destinationPriority : TodoPriority)
    (sourceIndex destinationIndex : Nat) (now : Int) (prev : List Todo) : List Todo :=
  let sourceList := sortByOrder (prev.filter (fun t => t.priority = sourcePriority))
  match sourceList[sourceIndex]? with
  | none => prev
  | some targetTodo =>
    if targetTodo.id ≠ todoId then prev
    else if sourcePriority = destinationPriority then
      let list := spliceInsert destinationIndex targetTodo (spliceRemove sourceIndex sourceList)
      rewriteFrom none now 0 list prev
    else
      let destList := sortByOrder (prev.filter (fun t => t.priority = destinationPriority))
      let sourceListCopy := spliceRemove sourceIndex sourceList
      let destListCopy :=
        spliceInsert destinationIndex { targetTodo with priority := destinationPriority } destList
      rewriteFrom (some destinationPriority) now 0 destListCopy
        (rewriteFrom none now 0 sourceListCopy prev)

/-- One engine operation of the task store, carrying the external inputs (fresh
id, current time) as data. -/
inductive Op where
  | create (data : TodoFormValues) (freshId : String) (now : Int)
  | update (id : String) (data : TodoPartial) (now : Int)
  | delete (id : String)
  | toggle (id : String) (now : Int)
  | reorder (todoId : String) (sourcePriority destinationPriority : TodoPriority)
      (sourceIndex destinationIndex : Nat) (now : Int)
deriving DecidableEq

/-- Dispatch of one operation on the collection. -/
def applyOp (s : List Todo) : Op → List Todo
  | .create d fid now => addTodo d fid now s
  | .update i d now => updateTodo i d now s
  | .delete i => deleteTodo i s
  | .toggle i now => toggleTodo i now s
  | .reorder tid sp dp si di now => reorderTodo tid sp dp si di now s

/-- A finite sequence of operations applied in order. -/
def applyOps (ops : List Op) (s : List Todo) : List Todo := ops.foldl applyOp s

/-- Index of the first task carrying the given id (the JS findIndex by id),
with none standing for the JS index -1. -/
def findIdxById (tid : String) : List Todo → Option Nat
  | [] => none
  | t :: ts => if t.id = tid then some 0 else (findIdxById tid ts).map (· + 1)

/-- Result of one rewrite loop on its own list: element k receives order i + k,
a fresh updatedAt, and optionally the new priority. -/
def assignFrom (newPriority : Option TodoPriority) (now : Int) (i : Nat) :
    List Todo → List Todo
  | [] => []
  | t :: ts => setRO newPriority i now t :: assignFrom newPriority now (i + 1) ts

/-- Strict version of the order comparison. -/
def todoLt (a b : Todo) : Prop := orderVal a < orderVal b

instance : DecidableRel todoLt := fun a b => by
  unfold todoLt
  infer_instance

/-- Reflexive closure of the strict order comparison; antisymmetric, which the
plain comparator is not. -/
def todoLtEq (a b : Todo) : Prop := orderVal a < orderVal b ∨ a = b

instance : IsAntisymm Todo todoLtEq where
  antisymm a b h h' := by
    rcases h with h | h
    · rcases h' with h' | h'
      · exact absurd h' (lt_asymm h)
      · exact h'.symm
    · exact h

instance : IsTrans Todo todoLtEq where
  trans a b c h h' := by
    rcases h with h | h
    · rcases h' with h' | h'
      · exact Or.inl (lt_trans h h')
      · exact Or.inl (h' ▸ h)
    · exact h ▸ h'

/-- The per-task effect of one rewrite loop: a task whose id occurs in the loop
list at position k is renumbered to order i + k, any other task is untouched. -/
def applyIdx (p : Option TodoPriority) (now : Int) (list : List Todo) (i : Nat) (u : Todo) :
    Todo :=
  match findIdxById u.id list with
  | some k => setRO p (i + k) now u
  | none => u

/-- Well-formedness of a collection: duplicate-free ids, and duplicate-free
effective order values within each quadrant. -/
def Wf (s : List Todo) : Prop :=
  (s.map Todo.id).Nodup ∧
  ∀ p : TodoPriority, ((s.filter (fun t => t.priority = p)).map orderVal).Nodup

/-- An update payload that leaves id, priority and order unset. -/
def SafePartial (d : TodoPartial) : Prop :=
  d.id = none ∧ d.priority = none ∧ d.order = none

instance : DecidablePred SafePartial := fun d => by
  unfold SafePartial
  infer_instance

/-- An operation that never touches the id, priority or order field through an
arbitrary update payload: any create, delete, toggle or reorder, and any
update whose payload leaves id, priority and order unset. -/
def SafeOp : Op → Prop
  | .update _ d _ => SafePartial d
  | _ => True

instance : DecidablePred SafeOp := fun op => by
  cases op <;> (unfold SafeOp; infer_instance)

/-- The ids consumed by the create operations of a sequence (crypto.randomUUID
yields globally fresh ids, modeled by requiring these to be distinct and new). -/
def createIds : List Op → List String
  | [] => []
  | .create _ fid _ :: ops => fid :: createIds ops
  | _ :: ops => createIds ops

/-- JS record lookup progress[key]?.isCompleted of the analytics dashboard,
with calendar day keys modeled as integers: format and subDays provide a
bijection between yyyy-MM-dd strings and day numbers, under which
subDays(d, 1) is d - 1. -/
def lookupCompleted (progress : List (Int × Bool)) (d : Int) : Bool :=
  match progress.find? (fun e => e.1 = d) with
  | some e => e.2
  | none => false

/-- The while(true) loop of calculateCurrentStreak: counts completed days
walking backward one day at a time from checkDate; it terminates because the
progress record is finite. -/
def streakFrom (progress : List (Int × Bool)) (checkDate : Int) : Nat :=
  if h : lookupCompleted progress checkDate = true then
    streakFrom progress (checkDate - 1) + 1
  else 0
termination_by (progress.filter (fun x => decide (x.1 ≤ checkDate))).length
decreasing_by
  have hfind : ∃ e ∈ progress, e.1 = checkDate ∧ e.2 = true := by
    unfold lookupCompleted at h
    cases hfe : progress.find? (fun e => e.1 = checkDate) with
    | none =>
      rw [hfe] at h
      exact Bool.noConfusion h
    | some e =>
      rw [hfe] at h
      refine ⟨e, List.mem_of_find?_eq_some hfe, ?_, h⟩
      have := List.find?_some hfe
      simpa using this
  obtain ⟨e, he, hd, _⟩ := hfind
  have key : ∀ (l : List (Int × Bool)), e ∈ l →
      (l.filter (fun x => decide (x.1 ≤ checkDate - 1))).length <
        (l.filter (fun x => decide (x.1 ≤ checkDate))).length := by
    intro l
    induction l with
    | nil =>
      intro hmem
      cases hmem
    | cons a l ih =>
      intro hmem
      have hmono : ∀ (m : List (Int × Bool)),
          (m.filter (fun x => decide (x.1 ≤ checkDate - 1))).length ≤
            (m.filter (fun x => decide (x.1 ≤ checkDate))).length := by
        intro m
        induction m with
        | nil => simp
        | cons b m ihm =>
          by_cases hb : (b.1 ≤ checkDate - 1)
          · rw [List.filter_cons_of_pos (by simpa using hb),
              List.filter_cons_of_pos (by
                simp only [decide_eq_true_eq]
                omega)]
            simpa using ihm
          · rw [List.filter_cons_of_neg (by simpa using hb)]
            by_cases hb2 : (b.1 ≤ checkDate)
            · rw [List.filter_cons_of_pos (by simpa using hb2)]
              exact le_trans ihm (Nat.le_succ _)
            · rw [List.filter_cons_of_neg (by simpa using hb2)]
              exact ihm
      rcases List.mem_cons.mp hmem with hae | hmem2
      · rw [hae] at hd
        rw [List.filter_cons_of_neg (by
            rw [hd]
            simp only [decide_eq_true_eq]
            omega),
          List.filter_cons_of_pos (by
            rw [hd]
            simp only [decide_eq_true_eq]
            omega)]
        exact Nat.lt_succ_of_le (hmono l)
      · have ihl := ih hmem2
        by_cases ha : (a.1 ≤ checkDate - 1)
        · rw [List.filter_cons_of_pos (by simpa using ha),
            List.filter_cons_of_pos (by
              simp only [decide_eq_true_eq]
              omega)]
          simpa using ihl
        · rw [List.filter_cons_of_neg (by simpa using ha)]
          by_cases hb2 : (a.1 ≤ checkDate)
          · rw [List.filter_cons_of_pos (by simpa using hb2)]
            exact Nat.lt_succ_of_lt ihl
          · rw [List.filter_cons_of_neg (by simpa using hb2)]
            exact ihl
  exact key progress he

/-- calculateCurrentStreak from DailyTrackingDashboard.tsx lines 52-76, with
day keys modeled as integers. An undefined progress record yields 0; otherwise
the walk starts at today, or at today - 1 when today is not completed. -/
def calculateCurrentStreak (progress : Option (List (Int × Bool))) (today : Int) : Nat :=
  match progress with
  | none => 0
  | some p =>
    let checkDate := if lookupCompleted p today then today else today - 1
    streakFrom p checkDate

/-- A sample task used to instantiate the theorems on concrete inputs. -/
def sampleTodo (i : String) (p : TodoPriority) (ord : Int) : Todo :=
  { id := i, title := "t", description := none, priority := p, isCompleted := false,
    order := some ord, createdAt := 0, updatedAt := 0, isDaily := none, subTasks := none,
    dailyProgress := none }

/-- Order normalization: an absent order field becomes an explicit 0, a
present order value is kept - the effect of reading order through
JS t.order || 0. -/
def normOrder (t : Todo) : Todo := { t with order := some (orderVal t) }

/-- JS record lookup todo.dailyProgress?.[todayKey] of DailyTrackerModal.tsx. -/
def progressFor (todo : Todo) (key : String) : Option DailyProgress :=
  match (todo.dailyProgress.getD []).find? (fun e => e.1 = key) with
  | some e => some e.2
  | none => none

/-- The completedSubTaskIds constant of DailyTrackerModal.tsx:
existingProgress?.completedSubTasks ?? []. -/
def completedIdsFor (todo : Todo) (key : String) : List String :=
  ((progressFor todo key).map DailyProgress.completedSubTasks).getD []

/-- handleSubTaskToggle from DailyTrackerModal.tsx lines 70-86: appends the
toggled sub-task id (checked) or removes every occurrence of it (unchecked),
then sets the day isCompleted to whether the task has sub-tasks and the
updated collection is exactly as long as the sub-task list; the notes of the
existing record are carried over. The DailyProgress record passed to onSave
is returned. -/
def handleSubTaskToggle (todo : Todo) (todayKey : String) (subTaskId : String)
    (checked : Bool) : DailyProgress :=
  let existingProgress := progressFor todo todayKey
  let completedSubTaskIds := ((existingProgress.map DailyProgress.completedSubTasks).getD [])
  let subTasks := todo.subTasks.getD []
  let totalSubTasks := subTasks.length
  let updatedSubTasks :=
    if checked then completedSubTaskIds ++ [subTaskId]
    else completedSubTaskIds.filter (fun i => i ≠ subTaskId)
  let allDone := decide (0 < totalSubTasks ∧ updatedSubTasks.length = totalSubTasks)
  { isCompleted := allDone,
    completedSubTasks := updatedSubTasks,
    notes := (existingProgress.map DailyProgress.notes).getD "" }

/-- A concrete daily task with two sub-tasks, of which the first is already
recorded as completed for day d. -/
def c2Todo : Todo :=
  { id := "task", title := "t", description := none,
    priority := TodoPriority.urgentImportant, isCompleted := false, order := some 0,
    createdAt := 0, updatedAt := 0, isDaily := some true,
    subTasks := some [⟨"s1", "x"⟩, ⟨"s2", "y"⟩],
    dailyProgress := some [("d", ⟨false, ["s1"], ""⟩)] }

theorem setRO_id (p : Option TodoPriority) (i : Nat) (now : Int) (t : Todo) :
    (setRO p i now t).id = t.id := rfl

theorem setRO_orderVal (p : Option TodoPriority) (i : Nat) (now : Int) (t : Todo) :
    orderVal (setRO p i now t) = (i : Int) := rfl

theorem updateFirstById_eq_map {tid : String} {f : Todo → Todo} {c : List Todo}
    (hc : (c.map Todo.id).Nodup) :
    updateFirstById tid f c = c.map (fun u => if u.id = tid then f u else u) := by
  induction c with
  | nil => rfl
  | cons t ts ih =>
    simp only [List.map_cons, List.nodup_cons] at hc
    by_cases h : t.id = tid
    · simp only [updateFirstById, if_pos h, List.map_cons]
      have hts : ∀ u ∈ ts, (if u.id = tid then f u else u) = u := by
        intro u hu
        have : u.id ≠ tid := by
          intro he
          exact hc.1 (h ▸ he ▸ List.mem_map_of_mem Todo.id hu)
        simp [this]
      rw [List.map_congr_left hts]
      simp
    · simp only [updateFirstById, if_neg h, List.map_cons, ih hc.2]

theorem findIdxById_eq_none {tid : String} {l : List Todo} :
    findIdxById tid l = none ↔ tid ∉ l.map Todo.id := by
  induction l with
  | nil => simp [findIdxById]
  | cons t ts ih =>
    by_cases h : t.id = tid
    · simp [findIdxById, h]
    · simp [findIdxById, h, ih, Ne.symm h]

theorem findIdxById_get_self {l : List Todo} (hl : (l.map Todo.id).Nodup)
    (k : Nat) (hk : k < l.length) :
    findIdxById (l.get ⟨k, hk⟩).id l = some k := by
  induction l generalizing k with
  | nil => exact absurd hk (Nat.not_lt_zero k)
  | cons t ts ih =>
    simp only [List.map_cons, List.nodup_cons] at hl
    match k with
    | 0 => simp [findIdxById]
    | k + 1 =>
      have hk' := Nat.lt_of_succ_lt_succ hk
      have hne : t.id ≠ (ts.get ⟨k, hk'⟩).id := by
        intro he
        exact hl.1 (he ▸ List.mem_map_of_mem Todo.id (ts.get_mem _ _))
      have hik := ih hl.2 k hk'
      simp only [List.get_eq_getElem] at hne hik ⊢
      simp only [List.getElem_cons_succ, findIdxById, if_neg hne, hik, Option.map_some']

/-- Closed form of one rewrite loop over a collection with duplicate-free ids:
every task whose id occurs in the loop list is rewritten to its positional
order there, every other task is untouched. -/
theorem rewriteFrom_eq_map {p : Option TodoPriority} {now : Int} {list c : List Todo}
    (i : Nat) (hl : (list.map Todo.id).Nodup) (hc : (c.map Todo.id).Nodup) :
    rewriteFrom p now i list c =
      c.map (fun u => match findIdxById u.id list with
        | some k => setRO p (i + k) now u
        | none => u) := by
  induction list generalizing i c with
  | nil =>
    simp only [rewriteFrom, findIdxById]
    exact (List.map_id c).symm ▸ (by simp)
  | cons t ts ih =>
    simp only [List.map_cons, List.nodup_cons] at hl
    rw [rewriteFrom, updateFirstById_eq_map hc]
    have hc' : ((c.map fun u => if u.id = t.id then setRO p i now u else u).map Todo.id).Nodup := by
      rw [List.map_map]
      have : (Todo.id ∘ fun u => if u.id = t.id then setRO p i now u else u) = Todo.id := by
        funext u
        by_cases h : u.id = t.id <;> simp [h, setRO_id]
      rw [this]
      exact hc
    rw [ih (i + 1) hl.2 hc', List.map_map]
    apply List.map_congr_left
    intro u _
    by_cases h : u.id = t.id
    · have hid : (setRO p i now u).id = u.id := setRO_id p i now u
      have hnone : findIdxById u.id ts = none := findIdxById_eq_none.mpr (h ▸ hl.1)
      simp only [Function.comp_apply, if_pos h, hid, hnone, findIdxById, if_pos h.symm]
      rw [Nat.add_zero]
    · simp only [Function.comp_apply, if_neg h, findIdxById, if_neg (Ne.symm h)]
      match hfi : findIdxById u.id ts with
      | some k =>
        have : i + 1 + k = i + (k + 1) := by omega
        simp [this]
      | none => simp

theorem assignFrom_map_id (p : Option TodoPriority) (now : Int) (i : Nat) (l : List Todo) :
    (assignFrom p now i l).map Todo.id = l.map Todo.id := by
  induction l generalizing i with
  | nil => rfl
  | cons t ts ih => simp [assignFrom, setRO_id, ih]

theorem assignFrom_length (p : Option TodoPriority) (now : Int) (i : Nat) (l : List Todo) :
    (assignFrom p now i l).length = l.length := by
  induction l generalizing i with
  | nil => rfl
  | cons t ts ih => simp [assignFrom, ih]

theorem assignFrom_get (p : Option TodoPriority) (now : Int) (i : Nat) (l : List Todo)
    (k : Nat) (hk : k < (assignFrom p now i l).length) (hk' : k < l.length) :
    (assignFrom p now i l).get ⟨k, hk⟩ = setRO p (i + k) now (l.get ⟨k, hk'⟩) := by
  induction l generalizing i k with
  | nil => exact absurd hk' (Nat.not_lt_zero k)
  | cons t ts ih =>
    match k with
    | 0 => simp [assignFrom]
    | k + 1 =>
      simp only [assignFrom, List.get_cons_succ]
      rw [ih (i + 1) k _ (Nat.lt_of_succ_lt_succ hk')]
      have : i + 1 + k = i + (k + 1) := by omega
      rw [this]

theorem orderVal_of_mem_assignFrom {p : Option TodoPriority} {now : Int} {i : Nat}
    {l : List Todo} {x : Todo} (hx : x ∈ assignFrom p now i l) : (i : Int) ≤ orderVal x := by
  induction l generalizing i with
  | nil => simp [assignFrom] at hx
  | cons t ts ih =>
    simp only [assignFrom, List.mem_cons] at hx
    rcases hx with h | h
    · rw [h, setRO_orderVal]
    · calc (i : Int) ≤ ((i + 1 : Nat) : Int) := by push_cast; omega
        _ ≤ orderVal x := ih h

theorem assignFrom_pairwise_lt (p : Option TodoPriority) (now : Int) (i : Nat) (l : List Todo) :
    (assignFrom p now i l).Pairwise todoLt := by
  induction l generalizing i with
  | nil => exact List.Pairwise.nil
  | cons t ts ih =>
    refine List.Pairwise.cons ?_ (ih (i + 1))
    intro x hx
    have := orderVal_of_mem_assignFrom hx
    unfold todoLt
    rw [setRO_orderVal]
    push_cast at this ⊢
    omega

theorem sortByOrder_perm (l : List Todo) : List.Perm (sortByOrder l) l :=
  List.perm_insertionSort todoLe l

theorem sortByOrder_sorted (l : List Todo) : List.Sorted todoLe (sortByOrder l) :=
  List.sorted_insertionSort todoLe l

/-- Recovering a strictly ordered list by sorting any permutation of it. -/
theorem sortByOrder_eq_of_perm_strict {l m : List Todo} (h : List.Perm l m)
    (hm : m.Pairwise todoLt) : sortByOrder l = m := by
  have hperm : List.Perm (sortByOrder l) m := (sortByOrder_perm l).trans h
  have hnodupm : (m.map orderVal).Nodup :=
    List.pairwise_map.mpr (hm.imp (fun h => ne_of_lt h))
  have hnodups : ((sortByOrder l).map orderVal).Nodup :=
    ((hperm.map orderVal).nodup_iff).mpr hnodupm
  have hpairne : (sortByOrder l).Pairwise (fun a b => orderVal a ≠ orderVal b) :=
    List.pairwise_map.mp hnodups
  have hsorted : (sortByOrder l).Pairwise todoLtEq := by
    have := (sortByOrder_sorted l).and hpairne
    exact this.imp (fun h => Or.inl (lt_of_le_of_ne h.1 h.2))
  have hm' : m.Pairwise todoLtEq := hm.imp (fun h => Or.inl h)
  exact List.eq_of_perm_of_sorted hperm hsorted hm'

theorem setRO_priority_none (i : Nat) (now : Int) (t : Todo) :
    (setRO none i now t).priority = t.priority := rfl

theorem setRO_priority_some (p : TodoPriority) (i : Nat) (now : Int) (t : Todo) :
    (setRO (some p) i now t).priority = p := rfl

theorem setRO_of_priority_update (p : TodoPriority) (i : Nat) (now : Int) (t : Todo)
    (x : TodoPriority) :
    setRO (some p) i now { t with priority := x } = setRO (some p) i now t := by
  cases t
  rfl

theorem spliceInsert_perm (i : Nat) (t : Todo) (l : List Todo) :
    List.Perm (spliceInsert i t l) (t :: l) := by
  unfold spliceInsert
  calc List.Perm (l.take i ++ [t] ++ l.drop i) (t :: (l.take i ++ l.drop i)) := by
        rw [List.append_assoc]
        exact List.perm_middle
    _ = t :: l := by rw [List.take_append_drop]

theorem cons_spliceRemove_perm {l : List Todo} (i : Nat) (hi : i < l.length) :
    List.Perm l (l.get ⟨i, hi⟩ :: spliceRemove i l) := by
  unfold spliceRemove
  conv_lhs => rw [← List.take_append_drop i l]
  rw [List.drop_eq_get_cons hi]
  exact List.perm_middle.trans (List.Perm.cons _ (List.Perm.refl _))

theorem eq_of_mem_of_id_eq {c : List Todo} (hc : (c.map Todo.id).Nodup)
    {a b : Todo} (ha : a ∈ c) (hb : b ∈ c) (h : a.id = b.id) : a = b :=
  List.inj_on_of_nodup_map hc ha hb h

theorem nodup_ids_filter {c : List Todo} (hc : (c.map Todo.id).Nodup) (pred : Todo → Bool) :
    ((c.filter pred).map Todo.id).Nodup :=
  hc.sublist ((List.filter_sublist c).map Todo.id)

theorem filter_ne_get_eq_spliceRemove {l : List Todo} (hl : (l.map Todo.id).Nodup)
    (i : Nat) (hi : i < l.length) :
    l.filter (fun u => u.id ≠ (l.get ⟨i, hi⟩).id) = spliceRemove i l := by
  induction l generalizing i with
  | nil => exact absurd hi (Nat.not_lt_zero i)
  | cons t ts ih =>
    simp only [List.map_cons, List.nodup_cons] at hl
    match i with
    | 0 =>
      have hts : ∀ u ∈ ts, u.id ≠ t.id := by
        intro u hu he
        exact hl.1 (he ▸ List.mem_map_of_mem Todo.id hu)
      simp only [List.get, spliceRemove, List.take_zero, List.drop_succ_cons,
        List.drop_zero, List.nil_append]
      rw [List.filter_cons_of_neg (by simp), List.filter_eq_self.mpr (by simpa using hts)]
    | i + 1 =>
      have hi' := Nat.lt_of_succ_lt_succ hi
      have hne : t.id ≠ (ts.get ⟨i, hi'⟩).id := by
        intro he
        exact hl.1 (he ▸ List.mem_map_of_mem Todo.id (ts.get_mem _ _))
      simp only [List.get_cons_succ, spliceRemove, List.take_succ_cons, List.drop_succ_cons,
        List.cons_append]
      rw [List.filter_cons_of_pos (by simpa using hne)]
      have := ih hl.2 i hi'
      simp only [spliceRemove] at this
      rw [this]

theorem filter_id_eq_singleton {c : List Todo} (hc : (c.map Todo.id).Nodup) {t : Todo}
    (ht : t ∈ c) : c.filter (fun u => u.id = t.id) = [t] := by
  induction c with
  | nil => exact absurd ht (List.not_mem_nil t)
  | cons a c ih =>
    simp only [List.map_cons, List.nodup_cons] at hc
    rcases List.mem_cons.mp ht with h | h
    · subst h
      rw [List.filter_cons_of_pos (by simp)]
      have : c.filter (fun u => u.id = t.id) = [] := by
        rw [List.filter_eq_nil]
        intro u hu
        simp only [decide_eq_true_eq]
        intro he
        exact hc.1 (he ▸ List.mem_map_of_mem Todo.id hu)
      rw [this]
    · have hne : ¬(a.id = t.id) := by
        intro he
        exact hc.1 (he ▸ List.mem_map_of_mem Todo.id h)
      rw [List.filter_cons_of_neg (by simpa using hne)]
      exact ih hc.2 h

theorem filter_or_perm {c : List Todo} {p q : Todo → Bool}
    (h : ∀ x ∈ c, ¬(p x = true ∧ q x = true)) :
    List.Perm (c.filter (fun x => p x || q x)) (c.filter p ++ c.filter q) := by
  induction c with
  | nil => simp
  | cons a c ih =>
    have ih' := ih (fun x hx => h x (List.mem_cons_of_mem a hx))
    by_cases hp : p a = true
    · have hq : ¬(q a = true) := fun hq => h a (List.mem_cons_self a c) ⟨hp, hq⟩
      simp only [List.filter_cons, hp, hq, Bool.true_or, if_true, if_false,
        Bool.false_eq_true, List.cons_append]
      exact ih'.cons a
    · by_cases hq : q a = true
      · simp only [List.filter_cons, hq, Bool.or_true, if_true]
        simp only [Bool.false_eq_true, hp, if_false]
        exact (ih'.cons a).trans List.perm_middle.symm
      · have : (p a || q a) = false := by
          simp [Bool.or_eq_true, hp, hq]
        simp only [List.filter_cons, this, hp, hq]
        simp only [Bool.false_eq_true, if_false]
        exact ih'

theorem rewriteFrom_eq_map_applyIdx {p : Option TodoPriority} {now : Int} {list c : List Todo}
    (i : Nat) (hl : (list.map Todo.id).Nodup) (hc : (c.map Todo.id).Nodup) :
    rewriteFrom p now i list c = c.map (applyIdx p now list i) := by
  rw [rewriteFrom_eq_map i hl hc]
  rfl

theorem map_match_eq_assignFrom {p : Option TodoPriority} {now : Int} (list : List Todo)
    (i : Nat) (hl : (list.map Todo.id).Nodup) :
    list.map (applyIdx p now list i) = assignFrom p now i list := by
  apply List.ext_get
  · rw [List.length_map, assignFrom_length]
  · intro k h₁ h₂
    have hk : k < list.length := by simpa using h₁
    rw [List.get_map, assignFrom_get p now i list k h₂ hk]
    unfold applyIdx
    rw [findIdxById_get_self hl k hk]

theorem applyIdx_id (p : Option TodoPriority) (now : Int) (list : List Todo) (i : Nat)
    (u : Todo) : (applyIdx p now list i u).id = u.id := by
  unfold applyIdx
  cases findIdxById u.id list <;> rfl

theorem applyIdx_priority_none (now : Int) (list : List Todo) (i : Nat) (u : Todo) :
    (applyIdx none now list i u).priority = u.priority := by
  unfold applyIdx
  cases findIdxById u.id list <;> rfl

theorem applyIdx_eq_self {p : Option TodoPriority} {now : Int} {list : List Todo} {i : Nat}
    {u : Todo} (h : u.id ∉ list.map Todo.id) : applyIdx p now list i u = u := by
  unfold applyIdx
  rw [findIdxById_eq_none.mpr h]

theorem applyIdx_priority_some {p : TodoPriority} {now : Int} {list : List Todo} {i : Nat}
    {u : Todo} (h : u.id ∈ list.map Todo.id) :
    (applyIdx (some p) now list i u).priority = p := by
  unfold applyIdx
  cases hfi : findIdxById u.id list with
  | none => exact absurd h (findIdxById_eq_none.mp hfi)
  | some k => rfl

/-- Filtering a pointwise-rewritten collection by quadrant commutes with the
rewrite, whenever the rewrite does not move tasks into or out of the
quadrant. -/
theorem filter_map_of_priority_iff {c : List Todo} {f : Todo → Todo} {q : TodoPriority}
    (h : ∀ u ∈ c, ((f u).priority = q ↔ u.priority = q)) :
    (c.map f).filter (fun t => t.priority = q) = (c.filter (fun t => t.priority = q)).map f := by
  rw [List.filter_map]
  congr 1
  exact List.filter_congr (fun u hu => decide_eq_decide.mpr (h u hu))

/-- Unfolding of the same-quadrant branch of reorderTodo when the sanity check
passes. -/
theorem reorderTodo_same_eq {todoId : String} {sp : TodoPriority} {si di : Nat} {now : Int}
    {prev : List Todo} {target : Todo}
    (hget : (getTodosByPriority sp prev)[si]? = some target)
    (hid : target.id = todoId) :
    reorderTodo todoId sp sp si di now prev =
      rewriteFrom none now 0
        (spliceInsert di target (spliceRemove si (getTodosByPriority sp prev))) prev := by
  unfold getTodosByPriority at hget
  simp only [reorderTodo]
  rw [hget]
  simp [hid, getTodosByPriority]

/-- Unfolding of the cross-quadrant branch of reorderTodo when the sanity check
passes. -/
theorem reorderTodo_cross_eq {todoId : String} {sp dp : TodoPriority} {si di : Nat} {now : Int}
    {prev : List Todo} {target : Todo}
    (hget : (getTodosByPriority sp prev)[si]? = some target)
    (hid : target.id = todoId) (hne : sp ≠ dp) :
    reorderTodo todoId sp dp si di now prev =
      rewriteFrom (some dp) now 0
        (spliceInsert di { target with priority := dp } (getTodosByPriority dp prev))
        (rewriteFrom none now 0 (spliceRemove si (getTodosByPriority sp prev)) prev) := by
  unfold getTodosByPriority at hget
  simp only [reorderTodo]
  rw [hget]
  simp [hid, hne, getTodosByPriority]

/-- The reorder sanity check fails when the source index is out of range: the
collection is returned unchanged. -/
theorem reorderTodo_noop_of_oob {todoId : String} {sp dp : TodoPriority} {si di : Nat}
    {now : Int} {prev : List Todo}
    (h : (getTodosByPriority sp prev)[si]? = none) :
    reorderTodo todoId sp dp si di now prev = prev := by
  unfold getTodosByPriority at h
  simp only [reorderTodo]
  rw [h]

/-- The reorder sanity check fails when the task found at the source index does
not carry the expected id: the collection is returned unchanged. -/
theorem reorderTodo_noop_of_mismatch {todoId : String} {sp dp : TodoPriority} {si di : Nat}
    {now : Int} {prev : List Todo} {target : Todo}
    (hget : (getTodosByPriority sp prev)[si]? = some target)
    (hid : target.id ≠ todoId) :
    reorderTodo todoId sp dp si di now prev = prev := by
  unfold getTodosByPriority at hget
  simp only [reorderTodo]
  rw [hget]
  simp [hid]

/-- Basic facts delivered by a passing sanity check: the target task belongs to
the collection and to the source quadrant, the sorted source list has
duplicate-free ids and is a permutation of the quadrant filter, and the source
index is in range and picks the target. -/
theorem srcList_facts {sp : TodoPriority} {prev : List Todo} {si : Nat} {target : Todo}
    (hc : (prev.map Todo.id).Nodup)
    (hget : (getTodosByPriority sp prev)[si]? = some target) :
    target ∈ prev ∧ target.priority = sp ∧
    ((getTodosByPriority sp prev).map Todo.id).Nodup ∧
    List.Perm (getTodosByPriority sp prev) (prev.filter (fun t => t.priority = sp)) ∧
    ∃ hsi : si < (getTodosByPriority sp prev).length,
      (getTodosByPriority sp prev).get ⟨si, hsi⟩ = target := by
  have hperm : List.Perm (getTodosByPriority sp prev) (prev.filter (fun t => t.priority = sp)) :=
    sortByOrder_perm _
  have hnodup : ((getTodosByPriority sp prev).map Todo.id).Nodup :=
    ((hperm.map Todo.id).nodup_iff).mpr (nodup_ids_filter hc _)
  have hsi : si < (getTodosByPriority sp prev).length := by
    by_contra hlt
    rw [List.getElem?_eq_none (Nat.le_of_not_lt hlt)] at hget
    exact Option.noConfusion hget
  have hgeteq : (getTodosByPriority sp prev).get ⟨si, hsi⟩ = target := by
    have := List.getElem?_eq_getElem hsi
    rw [hget] at this
    exact (Option.some_inj.mp this.symm)
  have htmem : target ∈ prev.filter (fun t => t.priority = sp) :=
    hperm.subset (hgeteq ▸ List.get_mem _ _ _)
  have h1 : target ∈ prev := (List.mem_filter.mp htmem).1
  have h2 : target.priority = sp := by
    have := (List.mem_filter.mp htmem).2
    simpa using this
  exact ⟨h1, h2, hnodup, hperm, hsi, hgeteq⟩

/-- Closed form of a same-quadrant reorder whose sanity check passes: every
task is rewritten pointwise via the moved list. -/
theorem reorderTodo_same_closed {todoId : String} {sp : TodoPriority} {si di : Nat}
    {now : Int} {prev : List Todo} {target : Todo}
    (hc : (prev.map Todo.id).Nodup)
    (hget : (getTodosByPriority sp prev)[si]? = some target)
    (hid : target.id = todoId) :
    reorderTodo todoId sp sp si di now prev =
      prev.map (applyIdx none now
        (spliceInsert di target (spliceRemove si (getTodosByPriority sp prev))) 0) := by
  obtain ⟨_, _, hnodup, _, hsi, hgeteq⟩ := srcList_facts hc hget
  have hlp : List.Perm
      (spliceInsert di target (spliceRemove si (getTodosByPriority sp prev)))
      (getTodosByPriority sp prev) :=
    (spliceInsert_perm di target _).trans (hgeteq ▸ cons_spliceRemove_perm si hsi).symm
  have hln : ((spliceInsert di target
      (spliceRemove si (getTodosByPriority sp prev))).map Todo.id).Nodup :=
    ((hlp.map Todo.id).nodup_iff).mpr hnodup
  rw [reorderTodo_same_eq hget hid, rewriteFrom_eq_map_applyIdx 0 hln hc]

/-- A same-quadrant reorder preserves the sequence of ids of the whole
collection. -/
theorem reorderTodo_same_map_id {todoId : String} {sp : TodoPriority} {si di : Nat}
    {now : Int} {prev : List Todo} {target : Todo}
    (hc : (prev.map Todo.id).Nodup)
    (hget : (getTodosByPriority sp prev)[si]? = some target)
    (hid : target.id = todoId) :
    (reorderTodo todoId sp sp si di now prev).map Todo.id = prev.map Todo.id := by
  rw [reorderTodo_same_closed hc hget hid, List.map_map]
  exact List.map_congr_left (fun u _ => applyIdx_id _ _ _ _ u)

/-- After a same-quadrant reorder, the affected quadrant filter is a
permutation of the moved list renumbered from 0. -/
theorem reorderTodo_same_filter_sp {todoId : String} {sp : TodoPriority} {si di : Nat}
    {now : Int} {prev : List Todo} {target : Todo}
    (hc : (prev.map Todo.id).Nodup)
    (hget : (getTodosByPriority sp prev)[si]? = some target)
    (hid : target.id = todoId) :
    List.Perm
      ((reorderTodo todoId sp sp si di now prev).filter (fun t => t.priority = sp))
      (assignFrom none now 0
        (spliceInsert di target (spliceRemove si (getTodosByPriority sp prev)))) := by
  obtain ⟨_, _, hnodup, hperm, hsi, hgeteq⟩ := srcList_facts hc hget
  have hlp : List.Perm
      (spliceInsert di target (spliceRemove si (getTodosByPriority sp prev)))
      (getTodosByPriority sp prev) :=
    (spliceInsert_perm di target _).trans (hgeteq ▸ cons_spliceRemove_perm si hsi).symm
  have hln : ((spliceInsert di target
      (spliceRemove si (getTodosByPriority sp prev))).map Todo.id).Nodup :=
    ((hlp.map Todo.id).nodup_iff).mpr hnodup
  rw [reorderTodo_same_closed hc hget hid,
    filter_map_of_priority_iff (fun u _ => by rw [applyIdx_priority_none])]
  have hpf : List.Perm (prev.filter (fun t => t.priority = sp))
      (spliceInsert di target (spliceRemove si (getTodosByPriority sp prev))) :=
    (hperm.symm).trans hlp.symm
  have := hpf.map (applyIdx none now
    (spliceInsert di target (spliceRemove si (getTodosByPriority sp prev))) 0)
  rwa [map_match_eq_assignFrom _ 0 hln] at this

/-- After a same-quadrant reorder, reading the quadrant back returns exactly
the moved list renumbered 0..n-1. -/
theorem getTodosByPriority_reorder_same {todoId : String} {sp : TodoPriority} {si di : Nat}
    {now : Int} {prev : List Todo} {target : Todo}
    (hc : (prev.map Todo.id).Nodup)
    (hget : (getTodosByPriority sp prev)[si]? = some target)
    (hid : target.id = todoId) :
    getTodosByPriority sp (reorderTodo todoId sp sp si di now prev) =
      assignFrom none now 0
        (spliceInsert di target (spliceRemove si (getTodosByPriority sp prev))) := by
  exact sortByOrder_eq_of_perm_strict
    (reorderTodo_same_filter_sp hc hget hid) (assignFrom_pairwise_lt _ _ _ _)

/-- A same-quadrant reorder leaves every other quadrant untouched. -/
theorem reorderTodo_same_filter_other {todoId : String} {sp : TodoPriority} {si di : Nat}
    {now : Int} {prev : List Todo} {target : Todo}
    (hc : (prev.map Todo.id).Nodup)
    (hget : (getTodosByPriority sp prev)[si]? = some target)
    (hid : target.id = todoId) {q : TodoPriority} (hq : q ≠ sp) :
    (reorderTodo todoId sp sp si di now prev).filter (fun t => t.priority = q) =
      prev.filter (fun t => t.priority = q) := by
  obtain ⟨_, _, _, hperm, hsi, hgeteq⟩ := srcList_facts hc hget
  have hlp : List.Perm
      (spliceInsert di target (spliceRemove si (getTodosByPriority sp prev)))
      (getTodosByPriority sp prev) :=
    (spliceInsert_perm di target _).trans (hgeteq ▸ cons_spliceRemove_perm si hsi).symm
  rw [reorderTodo_same_closed hc hget hid,
    filter_map_of_priority_iff (fun u _ => by rw [applyIdx_priority_none])]
  have hfix : ∀ u ∈ prev.filter (fun t => t.priority = q),
      applyIdx none now
        (spliceInsert di target (spliceRemove si (getTodosByPriority sp prev))) 0 u = u := by
    intro u hu
    obtain ⟨humem, hupr⟩ := List.mem_filter.mp hu
    have hupr' : u.priority = q := by simpa using hupr
    apply applyIdx_eq_self
    intro hin
    have hin' : u.id ∈ (prev.filter (fun t => t.priority = sp)).map Todo.id :=
      ((hperm.map Todo.id).mem_iff).mp (((hlp.map Todo.id).mem_iff).mp hin)
    obtain ⟨v, hvmem, hvid⟩ := List.mem_map.mp hin'
    obtain ⟨hvprev, hvpr⟩ := List.mem_filter.mp hvmem
    have hvpr' : v.priority = sp := by simpa using hvpr
    have : v = u := eq_of_mem_of_id_eq hc hvprev humem hvid
    rw [this] at hvpr'
    exact hq (hupr' ▸ hvpr'.symm ▸ rfl)
  rw [List.map_congr_left hfix]
  simp

theorem getTodosByPriority_perm (p : TodoPriority) (c : List Todo) :
    List.Perm (getTodosByPriority p c) (c.filter (fun t => t.priority = p)) :=
  sortByOrder_perm _

theorem getTodosByPriority_ids_nodup {c : List Todo} (hc : (c.map Todo.id).Nodup)
    (p : TodoPriority) : ((getTodosByPriority p c).map Todo.id).Nodup :=
  (((getTodosByPriority_perm p c).map Todo.id).nodup_iff).mpr (nodup_ids_filter hc _)

/-- For a collection with duplicate-free ids, a member task id appears in a
quadrant listing exactly when the task belongs to that quadrant. -/
theorem mem_quad_ids_iff {c : List Todo} (hc : (c.map Todo.id).Nodup) (p : TodoPriority)
    {u : Todo} (hu : u ∈ c) :
    u.id ∈ (getTodosByPriority p c).map Todo.id ↔ u.priority = p := by
  constructor
  · intro h
    obtain ⟨v, hvmem, hvid⟩ :=
      List.mem_map.mp (((getTodosByPriority_perm p c).map Todo.id).mem_iff.mp h)
    obtain ⟨hvc, hvpr⟩ := List.mem_filter.mp hvmem
    have hvu : v = u := eq_of_mem_of_id_eq hc hvc hu hvid
    rw [← hvu]
    simpa using hvpr
  · intro h
    apply ((getTodosByPriority_perm p c).map Todo.id).mem_iff.mpr
    exact List.mem_map_of_mem Todo.id (List.mem_filter.mpr ⟨hu, by simpa using h⟩)

theorem spliceRemove_ids_nodup {l : List Todo} (hl : (l.map Todo.id).Nodup) (i : Nat)
    (hi : i < l.length) :
    ((spliceRemove i l).map Todo.id).Nodup ∧
    (l.get ⟨i, hi⟩).id ∉ (spliceRemove i l).map Todo.id := by
  have hp := (cons_spliceRemove_perm i hi).map Todo.id
  have hn := (hp.nodup_iff).mp hl
  rw [List.map_cons, List.nodup_cons] at hn
  exact ⟨hn.2, hn.1⟩

theorem applyIdx_of_priority_update {p : TodoPriority} {now : Int} {list : List Todo} {i : Nat}
    {t : Todo} {x : TodoPriority} (h : t.id ∈ list.map Todo.id) :
    applyIdx (some p) now list i { t with priority := x } = applyIdx (some p) now list i t := by
  unfold applyIdx
  have hsame : ({ t with priority := x } : Todo).id = t.id := rfl
  rw [hsame]
  cases hfi : findIdxById t.id list with
  | none => exact absurd h (findIdxById_eq_none.mp hfi)
  | some k => exact setRO_of_priority_update p (i + k) now t x

/-- Closed form of a cross-quadrant reorder whose sanity check passes: the
source rewrite and the destination rewrite, applied pointwise in sequence. -/
theorem reorderTodo_cross_closed {todoId : String} {sp dp : TodoPriority} {si di : Nat}
    {now : Int} {prev : List Todo} {target : Todo}
    (hc : (prev.map Todo.id).Nodup)
    (hget : (getTodosByPriority sp prev)[si]? = some target)
    (hid : target.id = todoId) (hne : sp ≠ dp) :
    reorderTodo todoId sp dp si di now prev =
      (prev.map (applyIdx none now (spliceRemove si (getTodosByPriority sp prev)) 0)).map
        (applyIdx (some dp) now
          (spliceInsert di { target with priority := dp } (getTodosByPriority dp prev)) 0) := by
  obtain ⟨htmem, htpr, hsrcn, _, hsi, hgeteq⟩ := srcList_facts hc hget
  have hsrn := (spliceRemove_ids_nodup hsrcn si hsi).1
  have hdstn := getTodosByPriority_ids_nodup hc dp
  have htnd : target.id ∉ (getTodosByPriority dp prev).map Todo.id := by
    intro hmem
    exact hne ((htpr ▸ (mem_quad_ids_iff hc dp htmem).mp hmem : sp = dp))
  have hdcn : ((spliceInsert di { target with priority := dp }
      (getTodosByPriority dp prev)).map Todo.id).Nodup := by
    have hp := (spliceInsert_perm di { target with priority := dp }
      (getTodosByPriority dp prev)).map Todo.id
    apply (hp.nodup_iff).mpr
    rw [List.map_cons, List.nodup_cons]
    exact ⟨htnd, hdstn⟩
  have hmapF : ((prev.map (applyIdx none now
      (spliceRemove si (getTodosByPriority sp prev)) 0)).map Todo.id).Nodup := by
    rw [List.map_map]
    have : (prev.map (Todo.id ∘ applyIdx none now
        (spliceRemove si (getTodosByPriority sp prev)) 0)) = prev.map Todo.id :=
      List.map_congr_left (fun u _ => applyIdx_id _ _ _ _ u)
    rw [this]
    exact hc
  rw [reorderTodo_cross_eq hget hid hne,
    rewriteFrom_eq_map_applyIdx 0 hsrn hc,
    rewriteFrom_eq_map_applyIdx 0 hdcn hmapF]

/-- A cross-quadrant reorder preserves the sequence of ids of the whole
collection. -/
theorem reorderTodo_cross_map_id {todoId : String} {sp dp : TodoPriority} {si di : Nat}
    {now : Int} {prev : List Todo} {target : Todo}
    (hc : (prev.map Todo.id).Nodup)
    (hget : (getTodosByPriority sp prev)[si]? = some target)
    (hid : target.id = todoId) (hne : sp ≠ dp) :
    (reorderTodo todoId sp dp si di now prev).map Todo.id = prev.map Todo.id := by
  rw [reorderTodo_cross_closed hc hget hid hne, List.map_map, List.map_map]
  exact List.map_congr_left (fun u _ => by
    simp only [Function.comp_apply, applyIdx_id])

/-- A cross-quadrant reorder leaves every quadrant other than the source and
destination untouched. -/
theorem reorderTodo_cross_filter_other {todoId : String} {sp dp : TodoPriority} {si di : Nat}
    {now : Int} {prev : List Todo} {target : Todo}
    (hc : (prev.map Todo.id).Nodup)
    (hget : (getTodosByPriority sp prev)[si]? = some target)
    (hid : target.id = todoId) (hne : sp ≠ dp)
    {q : TodoPriority} (hq1 : q ≠ sp) (hq2 : q ≠ dp) :
    (reorderTodo todoId sp dp si di now prev).filter (fun t => t.priority = q) =
      prev.filter (fun t => t.priority = q) := by
  obtain ⟨htmem, htpr, hsrcn, hsperm, hsi, hgeteq⟩ := srcList_facts hc hget
  have hsub : ∀ x, x ∈ (spliceRemove si (getTodosByPriority sp prev)).map Todo.id →
      x ∈ (getTodosByPriority sp prev).map Todo.id := fun x hx =>
    ((cons_spliceRemove_perm si hsi).map Todo.id).mem_iff.mpr (List.mem_cons_of_mem _ hx)
  have hdmem : ∀ x, x ∈ (spliceInsert di { target with priority := dp }
      (getTodosByPriority dp prev)).map Todo.id ↔
      (x = todoId ∨ x ∈ (getTodosByPriority dp prev).map Todo.id) := by
    intro x
    have hp := (spliceInsert_perm di { target with priority := dp }
      (getTodosByPriority dp prev)).map Todo.id
    rw [hp.mem_iff]
    simp [← hid]
  rw [reorderTodo_cross_closed hc hget hid hne, List.map_map, List.filter_map]
  have hfix : ∀ u ∈ prev.filter (fun t => t.priority = q),
      (applyIdx (some dp) now (spliceInsert di { target with priority := dp }
          (getTodosByPriority dp prev)) 0 ∘
        applyIdx none now (spliceRemove si (getTodosByPriority sp prev)) 0) u = u := by
    intro u hu
    obtain ⟨humem, hupr⟩ := List.mem_filter.mp hu
    have hupr' : u.priority = q := by simpa using hupr
    have hF : applyIdx none now (spliceRemove si (getTodosByPriority sp prev)) 0 u = u := by
      apply applyIdx_eq_self
      intro hin
      exact hq1 (hupr' ▸ ((mem_quad_ids_iff hc sp humem).mp (hsub _ hin)).symm ▸ rfl)
    have hG : applyIdx (some dp) now (spliceInsert di { target with priority := dp }
        (getTodosByPriority dp prev)) 0 u = u := by
      apply applyIdx_eq_self
      intro hin
      rcases (hdmem u.id).mp hin with h | h
      · have : u = target := eq_of_mem_of_id_eq hc humem htmem (h.trans hid.symm)
        exact hq1 (hupr' ▸ (this ▸ htpr : u.priority = sp).symm ▸ rfl)
      · exact hq2 (hupr' ▸ ((mem_quad_ids_iff hc dp humem).mp h).symm ▸ rfl)
    simp only [Function.comp_apply, hF, hG]
  have hpred : ∀ u ∈ prev,
      ((fun t => decide (t.priority = q)) ∘
        (applyIdx (some dp) now (spliceInsert di { target with priority := dp }
            (getTodosByPriority dp prev)) 0 ∘
          applyIdx none now (spliceRemove si (getTodosByPriority sp prev)) 0)) u =
        decide (u.priority = q) := by
    intro u humem
    simp only [Function.comp_apply]
    apply decide_eq_decide.mpr
    by_cases hu1 : u.id = todoId
    · have hut : u = target := eq_of_mem_of_id_eq hc humem htmem (hu1.trans hid.symm)
      have hF : applyIdx none now (spliceRemove si (getTodosByPriority sp prev)) 0 u = u := by
        apply applyIdx_eq_self
        intro hin
        exact (spliceRemove_ids_nodup hsrcn si hsi).2 (by rwa [hgeteq, hid, ← hu1])
      rw [hF]
      have hG : (applyIdx (some dp) now (spliceInsert di { target with priority := dp }
          (getTodosByPriority dp prev)) 0 u).priority = dp :=
        applyIdx_priority_some ((hdmem u.id).mpr (Or.inl hu1))
      rw [hG]
      constructor
      · intro h
        exact absurd h.symm hq2
      · intro h
        have hsp : u.priority = sp := hut ▸ htpr
        exact absurd (h.symm.trans hsp) hq1
    · have hFpr : (applyIdx none now (spliceRemove si (getTodosByPriority sp prev)) 0 u).priority
          = u.priority := applyIdx_priority_none _ _ _ _
      have hFid : (applyIdx none now (spliceRemove si (getTodosByPriority sp prev)) 0 u).id
          = u.id := applyIdx_id _ _ _ _ _
      by_cases hdp : u.priority = dp
      · have hG : (applyIdx (some dp) now (spliceInsert di { target with priority := dp }
            (getTodosByPriority dp prev)) 0
              (applyIdx none now (spliceRemove si (getTodosByPriority sp prev)) 0 u)).priority
            = dp := by
          apply applyIdx_priority_some
          rw [hFid]
          exact (hdmem u.id).mpr (Or.inr ((mem_quad_ids_iff hc dp humem).mpr hdp))
        rw [hG, hdp]
      · have hG : applyIdx (some dp) now (spliceInsert di { target with priority := dp }
            (getTodosByPriority dp prev)) 0
              (applyIdx none now (spliceRemove si (getTodosByPriority sp prev)) 0 u) =
            applyIdx none now (spliceRemove si (getTodosByPriority sp prev)) 0 u := by
          apply applyIdx_eq_self
          rw [hFid]
          intro hin
          rcases (hdmem u.id).mp hin with h | h
          · exact hu1 h
          · exact hdp ((mem_quad_ids_iff hc dp humem).mp h)
        rw [hG, hFpr]
  rw [List.filter_congr hpred, List.map_congr_left hfix]
  simp

/-- After a cross-quadrant reorder, the source quadrant filter is a permutation
of the source list with the moved task removed, renumbered from 0. -/
theorem reorderTodo_cross_filter_sp {todoId : String} {sp dp : TodoPriority} {si di : Nat}
    {now : Int} {prev : List Todo} {target : Todo}
    (hc : (prev.map Todo.id).Nodup)
    (hget : (getTodosByPriority sp prev)[si]? = some target)
    (hid : target.id = todoId) (hne : sp ≠ dp) :
    List.Perm
      ((reorderTodo todoId sp dp si di now prev).filter (fun t => t.priority = sp))
      (assignFrom none now 0 (spliceRemove si (getTodosByPriority sp prev))) := by
  obtain ⟨htmem, htpr, hsrcn, hsperm, hsi, hgeteq⟩ := srcList_facts hc hget
  have hsub : ∀ x, x ∈ (spliceRemove si (getTodosByPriority sp prev)).map Todo.id →
      x ∈ (getTodosByPriority sp prev).map Todo.id := fun x hx =>
    ((cons_spliceRemove_perm si hsi).map Todo.id).mem_iff.mpr (List.mem_cons_of_mem _ hx)
  have hdmem : ∀ x, x ∈ (spliceInsert di { target with priority := dp }
      (getTodosByPriority dp prev)).map Todo.id ↔
      (x = todoId ∨ x ∈ (getTodosByPriority dp prev).map Todo.id) := by
    intro x
    have hp := (spliceInsert_perm di { target with priority := dp }
      (getTodosByPriority dp prev)).map Todo.id
    rw [hp.mem_iff]
    simp [← hid]
  have hsrn := (spliceRemove_ids_nodup hsrcn si hsi).1
  rw [reorderTodo_cross_closed hc hget hid hne, List.map_map, List.filter_map]
  have hpred : ∀ u ∈ prev,
      ((fun t => decide (t.priority = sp)) ∘
        (applyIdx (some dp) now (spliceInsert di { target with priority := dp }
            (getTodosByPriority dp prev)) 0 ∘
          applyIdx none now (spliceRemove si (getTodosByPriority sp prev)) 0)) u =
        (decide (u.priority = sp) && decide (u.id ≠ todoId)) := by
    intro u humem
    simp only [Function.comp_apply]
    by_cases hu1 : u.id = todoId
    · have hut : u = target := eq_of_mem_of_id_eq hc humem htmem (hu1.trans hid.symm)
      have hF : applyIdx none now (spliceRemove si (getTodosByPriority sp prev)) 0 u = u := by
        apply applyIdx_eq_self
        intro hin
        exact (spliceRemove_ids_nodup hsrcn si hsi).2 (by rwa [hgeteq, hid, ← hu1])
      have hG : (applyIdx (some dp) now (spliceInsert di { target with priority := dp }
          (getTodosByPriority dp prev)) 0 u).priority = dp :=
        applyIdx_priority_some ((hdmem u.id).mpr (Or.inl hu1))
      simp only [hF, hG]
      simp [hu1, Ne.symm hne]
    · have hFpr : (applyIdx none now (spliceRemove si (getTodosByPriority sp prev)) 0 u).priority
          = u.priority := applyIdx_priority_none _ _ _ _
      have hFid : (applyIdx none now (spliceRemove si (getTodosByPriority sp prev)) 0 u).id
          = u.id := applyIdx_id _ _ _ _ _
      by_cases hdp : u.priority = dp
      · have hG : (applyIdx (some dp) now (spliceInsert di { target with priority := dp }
            (getTodosByPriority dp prev)) 0
              (applyIdx none now (spliceRemove si (getTodosByPriority sp prev)) 0 u)).priority
            = dp := by
          apply applyIdx_priority_some
          rw [hFid]
          exact (hdmem u.id).mpr (Or.inr ((mem_quad_ids_iff hc dp humem).mpr hdp))
        simp only [hG]
        simp [hdp, Ne.symm hne, hne]
      · have hG : applyIdx (some dp) now (spliceInsert di { target with priority := dp }
            (getTodosByPriority dp prev)) 0
              (applyIdx none now (spliceRemove si (getTodosByPriority sp prev)) 0 u) =
            applyIdx none now (spliceRemove si (getTodosByPriority sp prev)) 0 u := by
          apply applyIdx_eq_self
          rw [hFid]
          intro hin
          rcases (hdmem u.id).mp hin with h | h
          · exact hu1 h
          · exact hdp ((mem_quad_ids_iff hc dp humem).mp h)
        simp only [hG, hFpr]
        simp [hu1]
  rw [List.filter_congr hpred]
  have hmapfix : ∀ u ∈ prev.filter (fun u => decide (u.priority = sp) && decide (u.id ≠ todoId)),
      (applyIdx (some dp) now (spliceInsert di { target with priority := dp }
          (getTodosByPriority dp prev)) 0 ∘
        applyIdx none now (spliceRemove si (getTodosByPriority sp prev)) 0) u =
      applyIdx none now (spliceRemove si (getTodosByPriority sp prev)) 0 u := by
    intro u hu
    obtain ⟨humem, hcond⟩ := List.mem_filter.mp hu
    rw [Bool.and_eq_true, decide_eq_true_eq, decide_eq_true_eq] at hcond
    have hFid : (applyIdx none now (spliceRemove si (getTodosByPriority sp prev)) 0 u).id
        = u.id := applyIdx_id _ _ _ _ _
    simp only [Function.comp_apply]
    apply applyIdx_eq_self
    rw [hFid]
    intro hin
    rcases (hdmem u.id).mp hin with h | h
    · exact hcond.2 h
    · exact hne (hcond.1 ▸ (mem_quad_ids_iff hc dp humem).mp h)
  rw [List.map_congr_left hmapfix]
  have hq1 : List.Perm (prev.filter (fun u => decide (u.priority = sp) && decide (u.id ≠ todoId)))
      (spliceRemove si (getTodosByPriority sp prev)) := by
    have hff : prev.filter (fun u => decide (u.priority = sp) && decide (u.id ≠ todoId)) =
        (prev.filter (fun t => t.priority = sp)).filter (fun u => u.id ≠ todoId) := by
      rw [List.filter_filter]
      exact List.filter_congr (fun u _ => by
        simp [Bool.and_comm])
    rw [hff]
    have h2 : (getTodosByPriority sp prev).filter (fun u => u.id ≠ todoId) =
        spliceRemove si (getTodosByPriority sp prev) := by
      have := filter_ne_get_eq_spliceRemove hsrcn si hsi
      rwa [hgeteq, hid] at this
    exact (hsperm.symm.filter _).trans (h2 ▸ List.Perm.refl _)
  have := hq1.map (applyIdx none now (spliceRemove si (getTodosByPriority sp prev)) 0)
  rwa [map_match_eq_assignFrom _ 0 hsrn] at this

/-- After a cross-quadrant reorder, the destination quadrant filter is a
permutation of the destination list with the moved task inserted, renumbered
from 0 and stamped with the destination priority. -/
theorem reorderTodo_cross_filter_dp {todoId : String} {sp dp : TodoPriority} {si di : Nat}
    {now : Int} {prev : List Todo} {target : Todo}
    (hc : (prev.map Todo.id).Nodup)
    (hget : (getTodosByPriority sp prev)[si]? = some target)
    (hid : target.id = todoId) (hne : sp ≠ dp) :
    List.Perm
      ((reorderTodo todoId sp dp si di now prev).filter (fun t => t.priority = dp))
      (assignFrom (some dp) now 0
        (spliceInsert di { target with priority := dp } (getTodosByPriority dp prev))) := by
  obtain ⟨htmem, htpr, hsrcn, hsperm, hsi, hgeteq⟩ := srcList_facts hc hget
  have hsub : ∀ x, x ∈ (spliceRemove si (getTodosByPriority sp prev)).map Todo.id →
      x ∈ (getTodosByPriority sp prev).map Todo.id := fun x hx =>
    ((cons_spliceRemove_perm si hsi).map Todo.id).mem_iff.mpr (List.mem_cons_of_mem _ hx)
  have hdmem : ∀ x, x ∈ (spliceInsert di { target with priority := dp }
      (getTodosByPriority dp prev)).map Todo.id ↔
      (x = todoId ∨ x ∈ (getTodosByPriority dp prev).map Todo.id) := by
    intro x
    have hp := (spliceInsert_perm di { target with priority := dp }
      (getTodosByPriority dp prev)).map Todo.id
    rw [hp.mem_iff]
    simp [← hid]
  have hdstn := getTodosByPriority_ids_nodup hc dp
  have htnd : target.id ∉ (getTodosByPriority dp prev).map Todo.id := by
    intro hmem
    exact hne ((htpr ▸ (mem_quad_ids_iff hc dp htmem).mp hmem : sp = dp))
  have hdcn : ((spliceInsert di { target with priority := dp }
      (getTodosByPriority dp prev)).map Todo.id).Nodup := by
    have hp := (spliceInsert_perm di { target with priority := dp }
      (getTodosByPriority dp prev)).map Todo.id
    apply (hp.nodup_iff).mpr
    rw [List.map_cons, List.nodup_cons]
    exact ⟨htnd, hdstn⟩
  have hdperm := getTodosByPriority_perm dp prev
  rw [reorderTodo_cross_closed hc hget hid hne, List.map_map, List.filter_map]
  have hFtarget : applyIdx none now (spliceRemove si (getTodosByPriority sp prev)) 0 target
      = target := by
    apply applyIdx_eq_self
    intro hin
    exact (spliceRemove_ids_nodup hsrcn si hsi).2 (by rwa [hgeteq])
  have hpred : ∀ u ∈ prev,
      ((fun t => decide (t.priority = dp)) ∘
        (applyIdx (some dp) now (spliceInsert di { target with priority := dp }
            (getTodosByPriority dp prev)) 0 ∘
          applyIdx none now (spliceRemove si (getTodosByPriority sp prev)) 0)) u =
        (decide (u.priority = dp) || decide (u.id = todoId)) := by
    intro u humem
    simp only [Function.comp_apply]
    by_cases hu1 : u.id = todoId
    · have hut : u = target := eq_of_mem_of_id_eq hc humem htmem (hu1.trans hid.symm)
      have hF : applyIdx none now (spliceRemove si (getTodosByPriority sp prev)) 0 u = u := by
        rw [hut]
        exact hFtarget
      have hG : (applyIdx (some dp) now (spliceInsert di { target with priority := dp }
          (getTodosByPriority dp prev)) 0 u).priority = dp :=
        applyIdx_priority_some ((hdmem u.id).mpr (Or.inl hu1))
      simp only [hF, hG]
      simp [hu1]
    · have hFpr : (applyIdx none now (spliceRemove si (getTodosByPriority sp prev)) 0 u).priority
          = u.priority := applyIdx_priority_none _ _ _ _
      have hFid : (applyIdx none now (spliceRemove si (getTodosByPriority sp prev)) 0 u).id
          = u.id := applyIdx_id _ _ _ _ _
      by_cases hdp : u.priority = dp
      · have hG : (applyIdx (some dp) now (spliceInsert di { target with priority := dp }
            (getTodosByPriority dp prev)) 0
              (applyIdx none now (spliceRemove si (getTodosByPriority sp prev)) 0 u)).priority
            = dp := by
          apply applyIdx_priority_some
          rw [hFid]
          exact (hdmem u.id).mpr (Or.inr ((mem_quad_ids_iff hc dp humem).mpr hdp))
        simp only [hG]
        simp [hdp]
      · have hG : applyIdx (some dp) now (spliceInsert di { target with priority := dp }
            (getTodosByPriority dp prev)) 0
              (applyIdx none now (spliceRemove si (getTodosByPriority sp prev)) 0 u) =
            applyIdx none now (spliceRemove si (getTodosByPriority sp prev)) 0 u := by
          apply applyIdx_eq_self
          rw [hFid]
          intro hin
          rcases (hdmem u.id).mp hin with h | h
          · exact hu1 h
          · exact hdp ((mem_quad_ids_iff hc dp humem).mp h)
        simp only [hG, hFpr]
        simp [hu1, hdp]
  rw [List.filter_congr hpred]
  have hdisj : ∀ x ∈ prev, ¬((decide (x.priority = dp) = true) ∧ (decide (x.id = todoId) = true)) := by
    intro x hx hand
    rw [decide_eq_true_eq] at hand
    obtain ⟨h1, h2⟩ := hand
    rw [decide_eq_true_eq] at h2
    have hxt : x = target := eq_of_mem_of_id_eq hc hx htmem (h2.trans hid.symm)
    have hxsp : x.priority = sp := hxt ▸ htpr
    exact hne (hxsp.symm.trans h1)
  have hop := @filter_or_perm prev (fun u => decide (u.priority = dp))
    (fun u => decide (u.id = todoId)) hdisj
  have hsing : prev.filter (fun u => decide (u.id = todoId)) = [target] := by
    have := filter_id_eq_singleton hc htmem
    rwa [hid] at this
  have e1 : List.Perm (prev.filter (fun u => decide (u.priority = dp) || decide (u.id = todoId)))
      (prev.filter (fun t => t.priority = dp) ++ [target]) := hsing ▸ hop
  have e2 := e1.map
    (applyIdx (some dp) now (spliceInsert di { target with priority := dp }
        (getTodosByPriority dp prev)) 0 ∘
      applyIdx none now (spliceRemove si (getTodosByPriority sp prev)) 0)
  rw [List.map_append] at e2
  have e3 : (prev.filter (fun t => t.priority = dp)).map
      (applyIdx (some dp) now (spliceInsert di { target with priority := dp }
          (getTodosByPriority dp prev)) 0 ∘
        applyIdx none now (spliceRemove si (getTodosByPriority sp prev)) 0) =
      (prev.filter (fun t => t.priority = dp)).map
        (applyIdx (some dp) now (spliceInsert di { target with priority := dp }
          (getTodosByPriority dp prev)) 0) := by
    apply List.map_congr_left
    intro u hu
    obtain ⟨humem, hupr⟩ := List.mem_filter.mp hu
    have hupr' : u.priority = dp := by simpa using hupr
    have hF : applyIdx none now (spliceRemove si (getTodosByPriority sp prev)) 0 u = u := by
      apply applyIdx_eq_self
      intro hin
      have hsp : u.priority = sp := (mem_quad_ids_iff hc sp humem).mp (hsub _ hin)
      exact hne (hsp.symm.trans hupr')
    simp only [Function.comp_apply, hF]
  rw [e3] at e2
  have e4 : ((applyIdx (some dp) now (spliceInsert di { target with priority := dp }
        (getTodosByPriority dp prev)) 0 ∘
      applyIdx none now (spliceRemove si (getTodosByPriority sp prev)) 0)) target =
      applyIdx (some dp) now (spliceInsert di { target with priority := dp }
        (getTodosByPriority dp prev)) 0 target := by
    simp only [Function.comp_apply, hFtarget]
  rw [List.map_cons, List.map_nil, e4] at e2
  -- assemble the destination side
  have hp2 : List.Perm
      (({ target with priority := dp } : Todo) :: prev.filter (fun t => t.priority = dp))
      (spliceInsert di { target with priority := dp } (getTodosByPriority dp prev)) :=
    (hdperm.symm.cons _).trans (spliceInsert_perm di _ _).symm
  have e7 : applyIdx (some dp) now (spliceInsert di { target with priority := dp }
        (getTodosByPriority dp prev)) 0 target =
      applyIdx (some dp) now (spliceInsert di { target with priority := dp }
        (getTodosByPriority dp prev)) 0 { target with priority := dp } :=
    (applyIdx_of_priority_update ((hdmem target.id).mpr (Or.inl hid))).symm
  have h1 : List.Perm
      ((prev.filter (fun t => t.priority = dp)).map
          (applyIdx (some dp) now (spliceInsert di { target with priority := dp }
            (getTodosByPriority dp prev)) 0) ++
        [applyIdx (some dp) now (spliceInsert di { target with priority := dp }
          (getTodosByPriority dp prev)) 0 target])
      (assignFrom (some dp) now 0
        (spliceInsert di { target with priority := dp } (getTodosByPriority dp prev))) := by
    refine (List.perm_append_singleton _ _).trans ?_
    have hmain : List.Perm
        ((({ target with priority := dp } : Todo) ::
            prev.filter (fun t => t.priority = dp)).map
          (applyIdx (some dp) now (spliceInsert di { target with priority := dp }
            (getTodosByPriority dp prev)) 0))
        (assignFrom (some dp) now 0
          (spliceInsert di { target with priority := dp } (getTodosByPriority dp prev))) := by
      rw [← map_match_eq_assignFrom _ 0 hdcn]
      exact hp2.map _
    rw [List.map_cons] at hmain
    rwa [e7]
  exact e2.trans h1

/-- After a cross-quadrant reorder, reading the source quadrant back returns
exactly the shrunken source list renumbered 0..n-1. -/
theorem getTodosByPriority_reorder_cross_sp {todoId : String} {sp dp : TodoPriority}
    {si di : Nat} {now : Int} {prev : List Todo} {target : Todo}
    (hc : (prev.map Todo.id).Nodup)
    (hget : (getTodosByPriority sp prev)[si]? = some target)
    (hid : target.id = todoId) (hne : sp ≠ dp) :
    getTodosByPriority sp (reorderTodo todoId sp dp si di now prev) =
      assignFrom none now 0 (spliceRemove si (getTodosByPriority sp prev)) :=
  sortByOrder_eq_of_perm_strict (reorderTodo_cross_filter_sp hc hget hid hne)
    (assignFrom_pairwise_lt _ _ _ _)

/-- After a cross-quadrant reorder, reading the destination quadrant back
returns exactly the extended destination list renumbered 0..n-1. -/
theorem getTodosByPriority_reorder_cross_dp {todoId : String} {sp dp : TodoPriority}
    {si di : Nat} {now : Int} {prev : List Todo} {target : Todo}
    (hc : (prev.map Todo.id).Nodup)
    (hget : (getTodosByPriority sp prev)[si]? = some target)
    (hid : target.id = todoId) (hne : sp ≠ dp) :
    getTodosByPriority dp (reorderTodo todoId sp dp si di now prev) =
      assignFrom (some dp) now 0
        (spliceInsert di { target with priority := dp } (getTodosByPriority dp prev)) :=
  sortByOrder_eq_of_perm_strict (reorderTodo_cross_filter_dp hc hget hid hne)
    (assignFrom_pairwise_lt _ _ _ _)

theorem wf_nil : Wf [] := by
  constructor
  · exact List.nodup_nil
  · intro p
    exact List.nodup_nil

theorem le_mathMax (x : Int) (xs : List Int) :
    x ≤ mathMax x xs ∧ ∀ v ∈ xs, v ≤ mathMax x xs := by
  induction xs generalizing x with
  | nil => exact ⟨le_refl x, by simp⟩
  | cons y ys ih =>
    obtain ⟨h1, h2⟩ := ih (max x y)
    have hM : mathMax x (y :: ys) = mathMax (max x y) ys := rfl
    rw [hM]
    refine ⟨le_trans (le_max_left x y) h1, ?_⟩
    intro v hv
    rcases List.mem_cons.mp hv with h | h
    · exact le_trans (h ▸ le_max_right x y) h1
    · exact h2 v h

theorem addTodo_map_id (d : TodoFormValues) (fid : String) (now : Int) (s : List Todo) :
    (addTodo d fid now s).map Todo.id = fid :: s.map Todo.id := rfl

theorem wf_addTodo {s : List Todo} (h : Wf s) (d : TodoFormValues) {fid : String} (now : Int)
    (hfresh : fid ∉ s.map Todo.id) : Wf (addTodo d fid now s) := by
  obtain ⟨hc, ho⟩ := h
  constructor
  · rw [addTodo_map_id]
    exact List.nodup_cons.mpr ⟨hfresh, hc⟩
  · intro p
    simp only [addTodo]
    by_cases hp : p = d.priority
    · subst hp
      rw [List.filter_cons_of_pos (by simp)]
      rw [List.map_cons, List.nodup_cons]
      refine ⟨?_, ho d.priority⟩
      cases hm : (s.filter (fun t => decide (t.priority = d.priority))).map orderVal with
      | nil => simp
      | cons x xs =>
        intro hmem
        have hle := le_mathMax x xs
        simp only [orderVal, Option.getD_some] at hmem
        rcases List.mem_cons.mp hmem with hx | hx
        · have := hle.1
          omega
        · have := hle.2 _ hx
          omega
    · rw [List.filter_cons_of_neg (by simp [Ne.symm hp])]
      exact ho p

theorem mergeTodo_id {d : TodoPartial} (hd : d.id = none) (t : Todo) (now : Int) :
    (mergeTodo t d now).id = t.id := by
  simp [mergeTodo, hd]

theorem mergeTodo_priority {d : TodoPartial} (hd : d.priority = none) (t : Todo) (now : Int) :
    (mergeTodo t d now).priority = t.priority := by
  simp [mergeTodo, hd]

theorem mergeTodo_orderVal {d : TodoPartial} (hd : d.order = none) (t : Todo) (now : Int) :
    orderVal (mergeTodo t d now) = orderVal t := by
  simp [mergeTodo, orderVal, hd]

theorem updateTodo_map_id {d : TodoPartial} (hd : d.id = none) (i : String) (now : Int)
    (s : List Todo) : (updateTodo i d now s).map Todo.id = s.map Todo.id := by
  unfold updateTodo
  rw [List.map_map]
  apply List.map_congr_left
  intro t _
  by_cases h : t.id = i <;> simp [h, mergeTodo_id hd]

theorem toggleTodo_map_id (i : String) (now : Int) (s : List Todo) :
    (toggleTodo i now s).map Todo.id = s.map Todo.id := by
  unfold toggleTodo
  rw [List.map_map]
  apply List.map_congr_left
  intro t _
  by_cases h : t.id = i <;> simp [h]

/-- A quadrant filter is unchanged (as a list of order values and priorities)
by a pointwise map that preserves priority and effective order. -/
theorem filter_orderVals_of_pointwise {s : List Todo} {g : Todo → Todo}
    (hpr : ∀ t ∈ s, (g t).priority = t.priority)
    (hov : ∀ t ∈ s, orderVal (g t) = orderVal t) (p : TodoPriority) :
    ((s.map g).filter (fun t => t.priority = p)).map orderVal =
      (s.filter (fun t => t.priority = p)).map orderVal := by
  rw [List.filter_map]
  have h1 : s.filter ((fun t => decide (t.priority = p)) ∘ g) =
      s.filter (fun t => t.priority = p) :=
    List.filter_congr (fun t ht => by simp [Function.comp_apply, hpr t ht])
  rw [h1, List.map_map]
  apply List.map_congr_left
  intro t ht
  exact hov t (List.mem_of_mem_filter ht)

theorem wf_updateTodo {s : List Todo} (h : Wf s) {d : TodoPartial} (hd : SafePartial d)
    (i : String) (now : Int) : Wf (updateTodo i d now s) := by
  obtain ⟨hc, ho⟩ := h
  obtain ⟨h1, h2, h3⟩ := hd
  constructor
  · rw [updateTodo_map_id h1]
    exact hc
  · intro p
    unfold updateTodo
    rw [filter_orderVals_of_pointwise (fun t _ => ?_) (fun t _ => ?_) p]
    · exact ho p
    · by_cases ht : t.id = i <;> simp [ht, mergeTodo_priority h2]
    · by_cases ht : t.id = i <;> simp [ht, mergeTodo_orderVal h3]

theorem wf_toggleTodo {s : List Todo} (h : Wf s) (i : String) (now : Int) :
    Wf (toggleTodo i now s) := by
  obtain ⟨hc, ho⟩ := h
  constructor
  · rw [toggleTodo_map_id]
    exact hc
  · intro p
    unfold toggleTodo
    rw [filter_orderVals_of_pointwise (fun t _ => ?_) (fun t _ => ?_) p]
    · exact ho p
    · by_cases ht : t.id = i <;> simp [ht]
    · by_cases ht : t.id = i <;> simp [ht, orderVal]

theorem wf_deleteTodo {s : List Todo} (h : Wf s) (i : String) : Wf (deleteTodo i s) := by
  obtain ⟨hc, ho⟩ := h
  constructor
  · exact hc.sublist ((List.filter_sublist s).map Todo.id)
  · intro p
    have hsub : List.Sublist ((deleteTodo i s).filter (fun t => t.priority = p))
        (s.filter (fun t => t.priority = p)) :=
      (List.filter_sublist s).filter _
    exact (ho p).sublist (hsub.map orderVal)

theorem nodup_orderVals_of_pairwise_lt {m : List Todo} (hm : m.Pairwise todoLt) :
    (m.map orderVal).Nodup :=
  List.pairwise_map.mpr (hm.imp (fun h => ne_of_lt h))

theorem reorderTodo_map_id_of_nodup {todoId : String} {sp dp : TodoPriority} {si di : Nat}
    {now : Int} {prev : List Todo} (hc : (prev.map Todo.id).Nodup) :
    (reorderTodo todoId sp dp si di now prev).map Todo.id = prev.map Todo.id := by
  cases hget : (getTodosByPriority sp prev)[si]? with
  | none => rw [reorderTodo_noop_of_oob hget]
  | some target =>
    by_cases hid : target.id = todoId
    · by_cases hpq : sp = dp
      · subst hpq
        exact reorderTodo_same_map_id hc hget hid
      · exact reorderTodo_cross_map_id hc hget hid hpq
    · rw [reorderTodo_noop_of_mismatch hget hid]

theorem wf_reorderTodo {todoId : String} {sp dp : TodoPriority} {si di : Nat} {now : Int}
    {prev : List Todo} (h : Wf prev) : Wf (reorderTodo todoId sp dp si di now prev) := by
  obtain ⟨hc, ho⟩ := h
  cases hget : (getTodosByPriority sp prev)[si]? with
  | none =>
    rw [reorderTodo_noop_of_oob hget]
    exact ⟨hc, ho⟩
  | some target =>
    by_cases hid : target.id = todoId
    · by_cases hpq : sp = dp
      · subst hpq
        refine ⟨reorderTodo_same_map_id hc hget hid ▸ hc, ?_⟩
        intro p
        by_cases hp : p = sp
        · subst hp
          exact ((reorderTodo_same_filter_sp hc hget hid).map orderVal).nodup_iff.mpr
            (nodup_orderVals_of_pairwise_lt (assignFrom_pairwise_lt _ _ _ _))
        · rw [reorderTodo_same_filter_other hc hget hid hp]
          exact ho p
      · refine ⟨reorderTodo_cross_map_id hc hget hid hpq ▸ hc, ?_⟩
        intro p
        by_cases hp1 : p = sp
        · subst hp1
          exact ((reorderTodo_cross_filter_sp hc hget hid hpq).map orderVal).nodup_iff.mpr
            (nodup_orderVals_of_pairwise_lt (assignFrom_pairwise_lt _ _ _ _))
        · by_cases hp2 : p = dp
          · subst hp2
            exact ((reorderTodo_cross_filter_dp hc hget hid hpq).map orderVal).nodup_iff.mpr
              (nodup_orderVals_of_pairwise_lt (assignFrom_pairwise_lt _ _ _ _))
          · rw [reorderTodo_cross_filter_other hc hget hid hpq hp1 hp2]
            exact ho p
    · rw [reorderTodo_noop_of_mismatch hget hid]
      exact ⟨hc, ho⟩

theorem wf_applyOps (ops : List Op) (s : List Todo) (hs : Wf s)
    (hsafe : ∀ op ∈ ops, SafeOp op) (hnd : (createIds ops).Nodup)
    (hdisj : ∀ x ∈ createIds ops, x ∉ s.map Todo.id) :
    Wf (applyOps ops s) := by
  induction ops generalizing s with
  | nil => exact hs
  | cons op rest ih =>
    have hsafe' : ∀ o ∈ rest, SafeOp o := fun o hoa => hsafe o (List.mem_cons_of_mem op hoa)
    cases op with
    | create d fid now =>
      show Wf (applyOps rest (addTodo d fid now s))
      simp only [createIds, List.nodup_cons] at hnd
      have hfresh : fid ∉ s.map Todo.id := hdisj fid (by simp [createIds])
      refine ih (addTodo d fid now s) (wf_addTodo hs d now hfresh) hsafe' hnd.2 ?_
      intro x hx
      rw [addTodo_map_id, List.mem_cons]
      rintro (h | h)
      · exact hnd.1 (h ▸ hx)
      · exact hdisj x (by simp [createIds, hx]) h
    | update i d now =>
      show Wf (applyOps rest (updateTodo i d now s))
      have hd : SafePartial d := hsafe _ (List.mem_cons_self _ _)
      refine ih _ (wf_updateTodo hs hd i now) hsafe' (by simpa [createIds] using hnd) ?_
      intro x hx
      rw [updateTodo_map_id hd.1]
      exact hdisj x (by simpa [createIds] using hx)
    | delete i =>
      show Wf (applyOps rest (deleteTodo i s))
      refine ih _ (wf_deleteTodo hs i) hsafe' (by simpa [createIds] using hnd) ?_
      intro x hx hmem
      exact hdisj x (by simpa [createIds] using hx)
        (((List.filter_sublist s).map Todo.id).subset hmem)
    | toggle i now =>
      show Wf (applyOps rest (toggleTodo i now s))
      refine ih _ (wf_toggleTodo hs i now) hsafe' (by simpa [createIds] using hnd) ?_
      intro x hx
      rw [toggleTodo_map_id]
      exact hdisj x (by simpa [createIds] using hx)
    | reorder tid sp dp si di now =>
      show Wf (applyOps rest (reorderTodo tid sp dp si di now s))
      refine ih _ (wf_reorderTodo hs) hsafe' (by simpa [createIds] using hnd) ?_
      intro x hx
      rw [reorderTodo_map_id_of_nodup hs.1]
      exact hdisj x (by simpa [createIds] using hx)

/-- On a well-formed collection, a quadrant listing is strictly increasing in
effective order values. -/
theorem getTodosByPriority_pairwise_of_wf {s : List Todo} (h : Wf s) (q : TodoPriority) :
    (getTodosByPriority q s).Pairwise todoLt := by
  have hperm := getTodosByPriority_perm q s
  have hnodup : ((getTodosByPriority q s).map orderVal).Nodup :=
    ((hperm.map orderVal).nodup_iff).mpr (h.2 q)
  have hne := List.pairwise_map.mp hnodup
  have hle : (getTodosByPriority q s).Pairwise todoLe := sortByOrder_sorted _
  exact (hle.and hne).imp (fun hth => lt_of_le_of_ne hth.1 hth.2)

theorem length_filter_le_of_imp {α : Type} (l : List α) (p q : α → Bool)
    (h : ∀ x ∈ l, p x = true → q x = true) :
    (l.filter p).length ≤ (l.filter q).length := by
  induction l with
  | nil => simp
  | cons a l ih =>
    have ih' := ih (fun x hx => h x (List.mem_cons_of_mem a hx))
    by_cases hp : p a = true
    · rw [List.filter_cons_of_pos hp, List.filter_cons_of_pos (h a (List.mem_cons_self a l) hp)]
      simpa using ih'
    · rw [List.filter_cons_of_neg (by simpa using hp)]
      by_cases hq : q a = true
      · rw [List.filter_cons_of_pos hq]
        exact le_trans ih' (Nat.le_succ _)
      · rw [List.filter_cons_of_neg (by simpa using hq)]
        exact ih'

theorem length_filter_lt_of_mem {l : List (Int × Bool)} {e : Int × Bool} {d : Int}
    (he : e ∈ l) (hd : e.1 = d) :
    (l.filter (fun x => decide (x.1 ≤ d - 1))).length <
      (l.filter (fun x => decide (x.1 ≤ d))).length := by
  induction l with
  | nil => cases he
  | cons a l ih =>
    have hmono := length_filter_le_of_imp l (fun x => decide (x.1 ≤ d - 1))
      (fun x => decide (x.1 ≤ d)) (fun x _ hx => by
        rw [decide_eq_true_eq] at hx
        rw [decide_eq_true_eq]
        omega)
    rcases List.mem_cons.mp he with h | h
    · subst h
      rw [List.filter_cons_of_neg (by
          rw [hd]
          simp only [decide_eq_true_eq]
          omega),
        List.filter_cons_of_pos (by
          rw [hd]
          simp only [decide_eq_true_eq]
          omega)]
      exact Nat.lt_succ_of_le hmono
    · have ih' := ih h
      by_cases ha : (a.1 ≤ d - 1)
      · rw [List.filter_cons_of_pos (by simpa using ha),
          List.filter_cons_of_pos (by
            simp only [decide_eq_true_eq]
            omega)]
        simpa using ih'
      · rw [List.filter_cons_of_neg (by simpa using ha)]
        by_cases hb : (a.1 ≤ d)
        · rw [List.filter_cons_of_pos (by simpa using hb)]
          exact Nat.lt_succ_of_lt ih'
        · rw [List.filter_cons_of_neg (by simpa using hb)]
          exact ih'

theorem find?_of_lookupCompleted {p : List (Int × Bool)} {d : Int}
    (h : lookupCompleted p d = true) : ∃ e ∈ p, e.1 = d ∧ e.2 = true := by
  unfold lookupCompleted at h
  cases hfe : p.find? (fun e => e.1 = d) with
  | none =>
    rw [hfe] at h
    exact Bool.noConfusion h
  | some e =>
    rw [hfe] at h
    refine ⟨e, List.mem_of_find?_eq_some hfe, ?_, h⟩
    have := List.find?_some hfe
    simpa using this

/-- Characterization of the streak walk: every counted day (walking backward
from the start day) is completed, and the day just past the count is not. -/
theorem streakFrom_spec (p : List (Int × Bool)) (d : Int) :
    (∀ k : Nat, k < streakFrom p d → lookupCompleted p (d - k) = true) ∧
    lookupCompleted p (d - streakFrom p d) = false := by
  suffices h : ∀ (fuel : Nat) (d : Int),
      (p.filter (fun x => decide (x.1 ≤ d))).length ≤ fuel →
      (∀ k : Nat, k < streakFrom p d → lookupCompleted p (d - k) = true) ∧
      lookupCompleted p (d - streakFrom p d) = false by
    exact h _ d (le_refl _)
  intro fuel
  induction fuel with
  | zero =>
    intro d hd
    have hfalse : ¬(lookupCompleted p d = true) := by
      intro h
      obtain ⟨e, he, hed, _⟩ := find?_of_lookupCompleted h
      have : e ∈ p.filter (fun x => decide (x.1 ≤ d)) :=
        List.mem_filter.mpr ⟨he, by simp [hed]⟩
      have := List.length_pos.mpr (List.ne_nil_of_mem this)
      omega
    rw [streakFrom, dif_neg hfalse]
    refine ⟨fun k hk => absurd hk (by omega), ?_⟩
    simpa using Bool.not_eq_true _ ▸ (Bool.eq_false_iff.mpr (fun habs => hfalse habs))
  | succ n ih =>
    intro d hd
    by_cases h : lookupCompleted p d = true
    · obtain ⟨e, he, hed, _⟩ := find?_of_lookupCompleted h
      have hstep : (p.filter (fun x => decide (x.1 ≤ d - 1))).length ≤ n := by
        have := length_filter_lt_of_mem he hed
        omega
      obtain ⟨ih1, ih2⟩ := ih (d - 1) hstep
      rw [streakFrom, dif_pos h]
      constructor
      · intro k hk
        match k with
        | 0 => simpa using h
        | k + 1 =>
          have hk' : k < streakFrom p (d - 1) := by omega
          have := ih1 k hk'
          have harith : d - ((k : Int) + 1) = (d - 1) - k := by ring
          push_cast
          rw [harith]
          exact this
      · have harith : d - ((streakFrom p (d - 1) : Int) + 1) =
            (d - 1) - streakFrom p (d - 1) := by ring
        push_cast
        rw [harith]
        exact ih2
    · rw [streakFrom, dif_neg h]
      refine ⟨fun k hk => absurd hk (by omega), ?_⟩
      simpa using Bool.eq_false_iff.mpr (fun habs => h habs)

theorem mathMax_mem (x : Int) (xs : List Int) : mathMax x xs ∈ x :: xs := by
  induction xs generalizing x with
  | nil => simp [mathMax]
  | cons y ys ih =>
    have hM : mathMax x (y :: ys) = mathMax (max x y) ys := rfl
    rcases max_choice x y with hc | hc
    · rw [hM, hc]
      rcases List.mem_cons.mp (ih x) with h | h
      · rw [h]
        exact List.mem_cons_self _ _
      · exact List.mem_cons_of_mem _ (List.mem_cons_of_mem _ h)
    · rw [hM, hc]
      rcases List.mem_cons.mp (ih y) with h | h
      · rw [h]
        exact List.mem_cons_of_mem _ (List.mem_cons_self _ _)
      · exact List.mem_cons_of_mem _ (List.mem_cons_of_mem _ h)

/-- C4: create adds exactly one task, prepended to the collection, so every
pre-existing task is unchanged. The new task carries the supplied fresh id,
isCompleted false, both timestamps stamped to now, the input priority, and an
order one past the maximum effective order among the tasks already sharing
that priority - or 0 when no such task exists. -/
theorem addTodo_spec (d : TodoFormValues) (fid : String) (now : Int) (s : List Todo) :
    ∃ t : Todo, addTodo d fid now s = t :: s ∧
      t.id = fid ∧ t.isCompleted = false ∧ t.createdAt = now ∧ t.updatedAt = now ∧
      t.priority = d.priority ∧
      (s.filter (fun u => u.priority = d.priority) = [] → t.order = some 0) ∧
      (∀ u ∈ s.filter (fun u => u.priority = d.priority), orderVal u < orderVal t) ∧
      (s.filter (fun u => u.priority = d.priority) ≠ [] →
        ∃ u ∈ s.filter (fun u => u.priority = d.priority), orderVal t = orderVal u + 1) := by
  refine ⟨_, rfl, rfl, rfl, rfl, rfl, rfl, ?_, ?_, ?_⟩
  · intro h
    simp [h]
  · intro u hu
    cases hm : (s.filter (fun u => decide (u.priority = d.priority))).map orderVal with
    | nil =>
      rw [List.map_eq_nil] at hm
      rw [hm] at hu
      cases hu
    | cons x xs =>
      have hval : orderVal u ∈ x :: xs := hm ▸ List.mem_map_of_mem orderVal hu
      have hle := le_mathMax x xs
      simp only [orderVal, Option.getD_some] at hval ⊢
      rcases List.mem_cons.mp hval with hx | hx
      · have := hle.1
        omega
      · have := hle.2 _ hx
        omega
  · intro h
    cases hm : (s.filter (fun u => decide (u.priority = d.priority))).map orderVal with
    | nil =>
      rw [List.map_eq_nil] at hm
      exact absurd hm h
    | cons x xs =>
      have hmem : mathMax x xs ∈ (s.filter (fun u => decide (u.priority = d.priority))).map
          orderVal := hm ▸ mathMax_mem x xs
      obtain ⟨u, hu, huv⟩ := List.mem_map.mp hmem
      refine ⟨u, hu, ?_⟩
      simp only [orderVal, Option.getD_some] at huv ⊢
      omega

/-- C5: a reorder whose sanity check fails - either the order-sorted source
quadrant list has no element at sourceIndex, or the element found there
carries an id different from the requested one - returns the collection
unchanged; being a total function it never throws, and no rewrite of any task
is applied. -/
theorem reorder_sanity_noop {todoId : String} {sp dp : TodoPriority} {si di : Nat}
    {now : Int} {prev : List Todo}
    (h : (getTodosByPriority sp prev)[si]? = none ∨
      ∃ target, (getTodosByPriority sp prev)[si]? = some target ∧ target.id ≠ todoId) :
    reorderTodo todoId sp dp si di now prev = prev := by
  rcases h with h | ⟨target, hget, hid⟩
  · exact reorderTodo_noop_of_oob h
  · exact reorderTodo_noop_of_mismatch hget hid

theorem reorder_sanity_noop_witness :
    reorderTodo "a" TodoPriority.urgentImportant TodoPriority.unurgentImportant 1 0 5
        [sampleTodo "a" TodoPriority.urgentImportant 0] =
      [sampleTodo "a" TodoPriority.urgentImportant 0] :=
  reorder_sanity_noop (Or.inl (by decide))

/-- C6: a cross-quadrant reorder whose sanity check passes changes the priority
field of exactly one task - the moved one, identified by todoId, which
receives the destination priority. Positionally, every other task keeps its
original priority, and any task outside both affected quadrants is entirely
unchanged as a record. -/
theorem reorder_cross_moves_one_priority {todoId : String} {sp dp : TodoPriority}
    {si di : Nat} {now : Int} {prev : List Todo} {target : Todo}
    (hc : (prev.map Todo.id).Nodup)
    (hget : (getTodosByPriority sp prev)[si]? = some target)
    (hid : target.id = todoId) (hne : sp ≠ dp) :
    target ∈ prev ∧ target.priority = sp ∧
    (reorderTodo todoId sp dp si di now prev).length = prev.length ∧
    ∀ (k : Nat) (hk : k < prev.length)
      (hk' : k < (reorderTodo todoId sp dp si di now prev).length),
      (((prev.get ⟨k, hk⟩).id = todoId →
        ((reorderTodo todoId sp dp si di now prev).get ⟨k, hk'⟩).priority = dp) ∧
      ((prev.get ⟨k, hk⟩).id ≠ todoId →
        ((reorderTodo todoId sp dp si di now prev).get ⟨k, hk'⟩).priority
          = (prev.get ⟨k, hk⟩).priority) ∧
      ((prev.get ⟨k, hk⟩).priority ≠ sp → (prev.get ⟨k, hk⟩).priority ≠ dp →
        (reorderTodo todoId sp dp si di now prev).get ⟨k, hk'⟩ = prev.get ⟨k, hk⟩)) := by
  obtain ⟨htmem, htpr, hsrcn, hsperm, hsi, hgeteq⟩ := srcList_facts hc hget
  have hsub : ∀ x, x ∈ (spliceRemove si (getTodosByPriority sp prev)).map Todo.id →
      x ∈ (getTodosByPriority sp prev).map Todo.id := fun x hx =>
    ((cons_spliceRemove_perm si hsi).map Todo.id).mem_iff.mpr (List.mem_cons_of_mem _ hx)
  have hdmem : ∀ x, x ∈ (spliceInsert di { target with priority := dp }
      (getTodosByPriority dp prev)).map Todo.id ↔
      (x = todoId ∨ x ∈ (getTodosByPriority dp prev).map Todo.id) := by
    intro x
    have hp := (spliceInsert_perm di { target with priority := dp }
      (getTodosByPriority dp prev)).map Todo.id
    rw [hp.mem_iff]
    simp [← hid]
  have hclosed := @reorderTodo_cross_closed todoId sp dp si di now prev target hc hget hid hne
  refine ⟨htmem, htpr, by rw [hclosed]; simp, ?_⟩
  intro k hk hk'
  have humem : prev.get ⟨k, hk⟩ ∈ prev := prev.get_mem _ _
  have hresult : (reorderTodo todoId sp dp si di now prev).get ⟨k, hk'⟩ =
      applyIdx (some dp) now (spliceInsert di { target with priority := dp }
          (getTodosByPriority dp prev)) 0
        (applyIdx none now (spliceRemove si (getTodosByPriority sp prev)) 0
          (prev.get ⟨k, hk⟩)) := by
    simp only [List.get_eq_getElem]
    simp only [hclosed, List.getElem_map]
  set u := prev.get ⟨k, hk⟩ with hu
  have hFid : (applyIdx none now (spliceRemove si (getTodosByPriority sp prev)) 0 u).id
      = u.id := applyIdx_id _ _ _ _ _
  have hFpr : (applyIdx none now (spliceRemove si (getTodosByPriority sp prev)) 0 u).priority
      = u.priority := applyIdx_priority_none _ _ _ _
  refine ⟨?_, ?_, ?_⟩
  · intro h1
    rw [hresult]
    apply applyIdx_priority_some
    rw [hFid]
    exact (hdmem u.id).mpr (Or.inl h1)
  · intro h2
    rw [hresult]
    by_cases hdp : u.priority = dp
    · rw [show (applyIdx (some dp) now (spliceInsert di { target with priority := dp }
          (getTodosByPriority dp prev)) 0
            (applyIdx none now (spliceRemove si (getTodosByPriority sp prev)) 0 u)).priority
          = dp from applyIdx_priority_some (by
            rw [hFid]
            exact (hdmem u.id).mpr (Or.inr ((mem_quad_ids_iff hc dp humem).mpr hdp)))]
      exact hdp.symm
    · rw [show applyIdx (some dp) now (spliceInsert di { target with priority := dp }
          (getTodosByPriority dp prev)) 0
            (applyIdx none now (spliceRemove si (getTodosByPriority sp prev)) 0 u)
          = applyIdx none now (spliceRemove si (getTodosByPriority sp prev)) 0 u from
          applyIdx_eq_self (by
            rw [hFid]
            intro hin
            rcases (hdmem u.id).mp hin with h | h
            · exact h2 h
            · exact hdp ((mem_quad_ids_iff hc dp humem).mp h))]
      exact hFpr
  · intro hq1 hq2
    rw [hresult]
    have hF : applyIdx none now (spliceRemove si (getTodosByPriority sp prev)) 0 u = u := by
      apply applyIdx_eq_self
      intro hin
      exact hq1 ((mem_quad_ids_iff hc sp humem).mp (hsub _ hin))
    rw [hF]
    apply applyIdx_eq_self
    intro hin
    rcases (hdmem u.id).mp hin with h | h
    · have : u = target := eq_of_mem_of_id_eq hc humem htmem (h.trans hid.symm)
      exact hq1 (this ▸ htpr)
    · exact hq2 ((mem_quad_ids_iff hc dp humem).mp h)

theorem reorder_cross_moves_one_priority_witness :
    (reorderTodo "a" TodoPriority.urgentImportant TodoPriority.unurgentImportant 0 0 7
        [sampleTodo "a" TodoPriority.urgentImportant 0,
         sampleTodo "b" TodoPriority.unurgentImportant 0]).length =
      [sampleTodo "a" TodoPriority.urgentImportant 0,
       sampleTodo "b" TodoPriority.unurgentImportant 0].length :=
  (@reorder_cross_moves_one_priority "a" TodoPriority.urgentImportant
    TodoPriority.unurgentImportant 0 0 7
    [sampleTodo "a" TodoPriority.urgentImportant 0,
     sampleTodo "b" TodoPriority.unurgentImportant 0]
    (sampleTodo "a" TodoPriority.urgentImportant 0)
    (by decide) (by decide) rfl (by decide)).2.2.1

theorem spliceInsert_length (i : Nat) (t : Todo) (l : List Todo) :
    (spliceInsert i t l).length = l.length + 1 := by
  simp [spliceInsert]
  omega

theorem spliceRemove_length {l : List Todo} {i : Nat} (hi : i < l.length) :
    (spliceRemove i l).length = l.length - 1 := by
  simp [spliceRemove]
  omega

theorem spliceInsert_append {l : List Todo} {i : Nat} (h : l.length ≤ i) (t : Todo) :
    spliceInsert i t l = l ++ [t] := by
  unfold spliceInsert
  rw [List.take_of_length_le h, List.drop_eq_nil_of_le h]
  simp

/-- C9: a cross-quadrant reorder whose destination index exceeds the length of
the destination quadrant list appends the moved task at the end of that
quadrant: the destination listing afterwards is the old id sequence with the
moved id appended, the collection keeps its length (the operation completes
with no error path), and the order fields of both affected quadrants are
rewritten to the contiguous positional indices 0..length-1. -/
theorem reorder_cross_oob_appends {todoId : String} {sp dp : TodoPriority} {si di : Nat}
    {now : Int} {prev : List Todo} {target : Todo}
    (hc : (prev.map Todo.id).Nodup)
    (hget : (getTodosByPriority sp prev)[si]? = some target)
    (hid : target.id = todoId) (hne : sp ≠ dp)
    (hdi : (getTodosByPriority dp prev).length < di) :
    (getTodosByPriority dp (reorderTodo todoId sp dp si di now prev)).map Todo.id =
      (getTodosByPriority dp prev).map Todo.id ++ [todoId] ∧
    (reorderTodo todoId sp dp si di now prev).length = prev.length ∧
    (∀ (k : Nat)
      (hk : k < (getTodosByPriority dp (reorderTodo todoId sp dp si di now prev)).length),
      orderVal ((getTodosByPriority dp (reorderTodo todoId sp dp si di now prev)).get ⟨k, hk⟩)
        = (k : Int)) ∧
    (∀ (k : Nat)
      (hk : k < (getTodosByPriority sp (reorderTodo todoId sp dp si di now prev)).length),
      orderVal ((getTodosByPriority sp (reorderTodo todoId sp dp si di now prev)).get ⟨k, hk⟩)
        = (k : Int)) := by
  have hbpd := @getTodosByPriority_reorder_cross_dp todoId sp dp si di now prev target
    hc hget hid hne
  have hbps := @getTodosByPriority_reorder_cross_sp todoId sp dp si di now prev target
    hc hget hid hne
  have happend : spliceInsert di { target with priority := dp } (getTodosByPriority dp prev) =
      getTodosByPriority dp prev ++ [{ target with priority := dp }] :=
    spliceInsert_append (le_of_lt hdi) _
  refine ⟨?_, ?_, ?_, ?_⟩
  · rw [hbpd, assignFrom_map_id, happend, List.map_append]
    simp [hid]
  · rw [reorderTodo_cross_closed hc hget hid hne]
    simp
  · intro k hk
    have hk2 : k < (spliceInsert di { target with priority := dp }
        (getTodosByPriority dp prev)).length := by
      rw [hbpd, assignFrom_length] at hk
      exact hk
    rw [List.get_of_eq hbpd ⟨k, hk⟩,
      assignFrom_get (some dp) now 0 _ k (hbpd ▸ hk) hk2, setRO_orderVal]
    simp
  · intro k hk
    have hk2 : k < (spliceRemove si (getTodosByPriority sp prev)).length := by
      rw [hbps, assignFrom_length] at hk
      exact hk
    rw [List.get_of_eq hbps ⟨k, hk⟩,
      assignFrom_get none now 0 _ k (hbps ▸ hk) hk2, setRO_orderVal]
    simp

theorem reorder_cross_oob_appends_witness :
    (getTodosByPriority TodoPriority.unurgentImportant
        (reorderTodo "a" TodoPriority.urgentImportant TodoPriority.unurgentImportant 0 5 7
          [sampleTodo "a" TodoPriority.urgentImportant 0,
           sampleTodo "b" TodoPriority.unurgentImportant 0])).map Todo.id =
      (getTodosByPriority TodoPriority.unurgentImportant
        [sampleTodo "a" TodoPriority.urgentImportant 0,
         sampleTodo "b" TodoPriority.unurgentImportant 0]).map Todo.id ++ ["a"] :=
  (@reorder_cross_oob_appends "a" TodoPriority.urgentImportant
    TodoPriority.unurgentImportant 0 5 7
    [sampleTodo "a" TodoPriority.urgentImportant 0,
     sampleTodo "b" TodoPriority.unurgentImportant 0]
    (sampleTodo "a" TodoPriority.urgentImportant 0)
    (by decide) (by decide) rfl (by decide) (by decide)).1

theorem updateFirstById_map_id {tid : String} {f : Todo → Todo} (h : ∀ t, (f t).id = t.id)
    (c : List Todo) : (updateFirstById tid f c).map Todo.id = c.map Todo.id := by
  induction c with
  | nil => rfl
  | cons t ts ih =>
    unfold updateFirstById
    by_cases ht : t.id = tid
    · simp [ht, h t]
    · simp [ht, ih]

theorem rewriteFrom_map_id (p : Option TodoPriority) (now : Int) (i : Nat)
    (list c : List Todo) : (rewriteFrom p now i list c).map Todo.id = c.map Todo.id := by
  induction list generalizing i c with
  | nil => rfl
  | cons t ts ih =>
    show (rewriteFrom p now (i + 1) ts
        (updateFirstById t.id (setRO p i now) c)).map Todo.id = c.map Todo.id
    rw [ih (i + 1), updateFirstById_map_id (fun u => setRO_id p i now u)]

/-- Any reorder call preserves the id sequence of the collection exactly. -/
theorem reorderTodo_map_ids (todoId : String) (sp dp : TodoPriority) (si di : Nat)
    (now : Int) (prev : List Todo) :
    (reorderTodo todoId sp dp si di now prev).map Todo.id = prev.map Todo.id := by
  cases hget : (getTodosByPriority sp prev)[si]? with
  | none => rw [reorderTodo_noop_of_oob hget]
  | some target =>
    by_cases hid : target.id = todoId
    · by_cases hpq : sp = dp
      · subst hpq
        rw [reorderTodo_same_eq hget hid, rewriteFrom_map_id]
      · rw [reorderTodo_cross_eq hget hid hpq, rewriteFrom_map_id, rewriteFrom_map_id]
    · rw [reorderTodo_noop_of_mismatch hget hid]

/-- Counterexample to C8 as stated: an update whose partial-fields payload
contains an id field does rewrite the id of the matched task. -/
theorem update_alters_id_counterexample :
    (updateTodo "a" { id := some "b" } 1
        [sampleTodo "a" TodoPriority.urgentImportant 0]).map Todo.id ≠
      [sampleTodo "a" TodoPriority.urgentImportant 0].map Todo.id := by
  decide

/-- C8 (amended): no engine operation changes the id of an existing task,
except an update whose payload itself sets the id field. An update with an
id-free payload, a toggle, and any reorder preserve the id sequence exactly;
deletion keeps a subsequence of the ids; create only prepends the fresh id. -/
theorem ids_stable (s : List Todo) :
    (∀ (i : String) (d : TodoPartial) (now : Int), d.id = none →
      (updateTodo i d now s).map Todo.id = s.map Todo.id) ∧
    (∀ (i : String) (now : Int), (toggleTodo i now s).map Todo.id = s.map Todo.id) ∧
    (∀ i : String, List.Sublist ((deleteTodo i s).map Todo.id) (s.map Todo.id)) ∧
    (∀ (d : TodoFormValues) (fid : String) (now : Int),
      (addTodo d fid now s).map Todo.id = fid :: s.map Todo.id) ∧
    (∀ (todoId : String) (sp dp : TodoPriority) (si di : Nat) (now : Int),
      (reorderTodo todoId sp dp si di now s).map Todo.id = s.map Todo.id) := by
  refine ⟨?_, ?_, ?_, ?_, ?_⟩
  · intro i d now hd
    exact updateTodo_map_id hd i now s
  · intro i now
    exact toggleTodo_map_id i now s
  · intro i
    exact (List.filter_sublist s).map Todo.id
  · intro d fid now
    exact addTodo_map_id d fid now s
  · intro todoId sp dp si di now
    exact reorderTodo_map_ids todoId sp dp si di now s

theorem ids_stable_witness :
    (updateTodo "a" { title := some "u" } 1
        [sampleTodo "a" TodoPriority.urgentImportant 0]).map Todo.id =
      [sampleTodo "a" TodoPriority.urgentImportant 0].map Todo.id :=
  (ids_stable [sampleTodo "a" TodoPriority.urgentImportant 0]).1 "a"
    { title := some "u" } 1 rfl

/-- C1 (amended): starting from the empty collection, after any finite
sequence of engine operations in which the creates consume pairwise-distinct
fresh ids (as crypto.randomUUID provides) and every update payload leaves id,
priority and order unset, each quadrant listing has strictly increasing
effective order values along list positions - in particular no two tasks of a
quadrant share an order value. -/
theorem byPriority_strictly_increasing (ops : List Op)
    (hsafe : ∀ op ∈ ops, SafeOp op) (hnd : (createIds ops).Nodup) (q : TodoPriority) :
    (getTodosByPriority q (applyOps ops [])).Pairwise todoLt :=
  getTodosByPriority_pairwise_of_wf (wf_applyOps ops [] wf_nil hsafe hnd (by simp)) q

theorem byPriority_strictly_increasing_witness :
    (getTodosByPriority TodoPriority.urgentImportant (applyOps
      [Op.create ⟨"t", none, TodoPriority.urgentImportant, none, none⟩ "a" 0,
       Op.create ⟨"t", none, TodoPriority.urgentImportant, none, none⟩ "b" 1,
       Op.reorder "b" TodoPriority.urgentImportant TodoPriority.urgentImportant 1 0 2]
      [])).Pairwise todoLt :=
  byPriority_strictly_increasing _ (by decide) (by decide) _

/-- Counterexample to C1 as stated: an update operation may write an order
value that collides with an existing one, after which the quadrant listing is
no longer strictly increasing. -/
theorem byPriority_strictly_increasing_counterexample :
    ¬ (getTodosByPriority TodoPriority.urgentImportant (applyOps
      [Op.create ⟨"t", none, TodoPriority.urgentImportant, none, none⟩ "a" 0,
       Op.create ⟨"t", none, TodoPriority.urgentImportant, none, none⟩ "b" 1,
       Op.update "b" { order := some (some 0) } 2] [])).Pairwise todoLt := by
  decide

theorem spliceInsert_get {l : List Todo} {j : Nat} (hj : j ≤ l.length) (t : Todo)
    (h : j < (spliceInsert j t l).length) : (spliceInsert j t l).get ⟨j, h⟩ = t := by
  have hlen : (l.take j).length = j := by
    simp [List.length_take]
    omega
  simp only [spliceInsert, List.get_eq_getElem, List.append_assoc]
  rw [List.getElem_append_right hlen.le]
  simp [hlen]

theorem spliceRemove_map_id (i : Nat) (l : List Todo) :
    (spliceRemove i l).map Todo.id = (l.map Todo.id).take i ++ (l.map Todo.id).drop (i + 1) := by
  simp [spliceRemove, List.map_take, List.map_drop]

theorem spliceInsert_map_id (i : Nat) (t : Todo) (l : List Todo) :
    (spliceInsert i t l).map Todo.id =
      (l.map Todo.id).take i ++ [t.id] ++ (l.map Todo.id).drop i := by
  simp [spliceInsert, List.map_take, List.map_drop]

theorem insert_remove_cancel {α : Type} (Y : List α) (j : Nat) (x : α) (hj : j ≤ Y.length) :
    (Y.take j ++ [x] ++ Y.drop j).take j ++ (Y.take j ++ [x] ++ Y.drop j).drop (j + 1) = Y := by
  have htl : (Y.take j).length = j := by
    simp [List.length_take]
    omega
  have h1 : (Y.take j ++ [x] ++ Y.drop j).take j = Y.take j := by
    rw [List.append_assoc, List.take_append_eq_append_take, htl]
    simp
  have h2 : (Y.take j ++ [x] ++ Y.drop j).drop (j + 1) = Y.drop j := by
    rw [List.append_assoc, List.drop_append_eq_append_drop, htl]
    have hd1 : (Y.take j).drop (j + 1) = [] := by
      apply List.drop_eq_nil_of_le
      omega
    rw [hd1]
    simp [Nat.succ_sub (le_refl j)]
  rw [h1, h2, List.take_append_drop]

theorem take_cons_drop_cancel {α : Type} (X : List α) (i : Nat) (hi : i < X.length) (x : α)
    (hx : X.get ⟨i, hi⟩ = x) : X.take i ++ [x] ++ X.drop (i + 1) = X := by
  rw [← hx]
  conv_rhs => rw [← List.take_append_drop i X]
  rw [List.drop_eq_get_cons hi]
  simp

theorem take_append_full {α : Type} {A : List α} (B : List α) {i : Nat} (h : A.length = i) :
    (A ++ B).take i = A := by
  subst h
  exact List.take_left A B

theorem drop_append_full {α : Type} {A : List α} (B : List α) {i : Nat} (h : A.length = i) :
    (A ++ B).drop i = B := by
  subst h
  exact List.drop_left A B

/-- C7: a same-quadrant reorder of a task from index i to index j, followed by
the inverse reorder of the same task from index j back to index i, restores
the id sequence of the quadrant listing (the order integers and updatedAt
stamps may differ). -/
theorem reorder_same_roundtrip {todoId : String} {sp : TodoPriority} {i j : Nat}
    {now1 now2 : Int} {prev : List Todo} {target : Todo}
    (hc : (prev.map Todo.id).Nodup)
    (hget : (getTodosByPriority sp prev)[i]? = some target)
    (hid : target.id = todoId)
    (hj : j < (getTodosByPriority sp prev).length) :
    (getTodosByPriority sp
        (reorderTodo todoId sp sp j i now2
          (reorderTodo todoId sp sp i j now1 prev))).map Todo.id
      = (getTodosByPriority sp prev).map Todo.id := by
  obtain ⟨htmem, htpr, hsrcn, hsperm, hi, hgeteq⟩ := srcList_facts hc hget
  have h1 := @getTodosByPriority_reorder_same todoId sp i j now1 prev target hc hget hid
  have hc1 : ((reorderTodo todoId sp sp i j now1 prev).map Todo.id).Nodup := by
    rw [reorderTodo_map_ids]
    exact hc
  have hlenrem : (spliceRemove i (getTodosByPriority sp prev)).length =
      (getTodosByPriority sp prev).length - 1 := spliceRemove_length hi
  have hlen1 : (getTodosByPriority sp
      (reorderTodo todoId sp sp i j now1 prev)).length =
      (getTodosByPriority sp prev).length := by
    rw [h1, assignFrom_length, spliceInsert_length, hlenrem]
    omega
  have hj1 : j < (getTodosByPriority sp (reorderTodo todoId sp sp i j now1 prev)).length := by
    omega
  have hget2 : (getTodosByPriority sp (reorderTodo todoId sp sp i j now1 prev))[j]? =
      some ((getTodosByPriority sp (reorderTodo todoId sp sp i j now1 prev)).get ⟨j, hj1⟩) := by
    rw [List.getElem?_eq_getElem hj1]
    simp
  have hjle : j ≤ (spliceRemove i (getTodosByPriority sp prev)).length := by
    omega
  have hj2 : j < (spliceInsert j target
      (spliceRemove i (getTodosByPriority sp prev))).length := by
    rw [spliceInsert_length]
    omega
  have hlistget : (spliceInsert j target
      (spliceRemove i (getTodosByPriority sp prev))).get ⟨j, hj2⟩ = target :=
    spliceInsert_get hjle target hj2
  have hid2 : ((getTodosByPriority sp (reorderTodo todoId sp sp i j now1 prev)).get
      ⟨j, hj1⟩).id = todoId := by
    rw [List.get_of_eq h1 ⟨j, hj1⟩]
    rw [assignFrom_get none now1 0 _ j _ hj2]
    rw [setRO_id, hlistget, hid]
  have h2 := @getTodosByPriority_reorder_same todoId sp j i now2
    (reorderTodo todoId sp sp i j now1 prev)
    ((getTodosByPriority sp (reorderTodo todoId sp sp i j now1 prev)).get ⟨j, hj1⟩)
    hc1 hget2 hid2
  have hR : (spliceRemove i (getTodosByPriority sp prev)).map Todo.id =
      ((getTodosByPriority sp prev).map Todo.id).take i ++
        ((getTodosByPriority sp prev).map Todo.id).drop (i + 1) := spliceRemove_map_id i _
  have hlen0 : ((getTodosByPriority sp prev).map Todo.id).length =
      (getTodosByPriority sp prev).length := by simp
  have hlenR : (((getTodosByPriority sp prev).map Todo.id).take i ++
      ((getTodosByPriority sp prev).map Todo.id).drop (i + 1)).length =
      (getTodosByPriority sp prev).length - 1 := by
    simp [List.length_take, List.length_drop]
    omega
  have hids1 : (getTodosByPriority sp (reorderTodo todoId sp sp i j now1 prev)).map Todo.id =
      (((getTodosByPriority sp prev).map Todo.id).take i ++
          ((getTodosByPriority sp prev).map Todo.id).drop (i + 1)).take j ++ [todoId] ++
        (((getTodosByPriority sp prev).map Todo.id).take i ++
          ((getTodosByPriority sp prev).map Todo.id).drop (i + 1)).drop j := by
    rw [h1, assignFrom_map_id, spliceInsert_map_id, hR, hid]
  rw [h2, assignFrom_map_id, spliceInsert_map_id, spliceRemove_map_id, hid2, hids1]
  rw [insert_remove_cancel _ j todoId (by rw [hlenR]; omega)]
  have htake : (((getTodosByPriority sp prev).map Todo.id).take i ++
      ((getTodosByPriority sp prev).map Todo.id).drop (i + 1)).take i =
      ((getTodosByPriority sp prev).map Todo.id).take i := by
    apply take_append_full
    simp [List.length_take]
    omega
  have hdrop : (((getTodosByPriority sp prev).map Todo.id).take i ++
      ((getTodosByPriority sp prev).map Todo.id).drop (i + 1)).drop i =
      ((getTodosByPriority sp prev).map Todo.id).drop (i + 1) := by
    apply drop_append_full
    simp [List.length_take]
    omega
  rw [htake, hdrop]
  apply take_cons_drop_cancel _ i (by omega)
  simp only [List.get_eq_getElem, List.getElem_map]
  have hgetel : (getTodosByPriority sp prev)[i] = target := hgeteq
  rw [hgetel, hid]

theorem reorder_same_roundtrip_witness :
    (getTodosByPriority TodoPriority.urgentImportant
        (reorderTodo "a" TodoPriority.urgentImportant TodoPriority.urgentImportant 1 0 3
          (reorderTodo "a" TodoPriority.urgentImportant TodoPriority.urgentImportant 0 1 2
            [sampleTodo "a" TodoPriority.urgentImportant 0,
             sampleTodo "b" TodoPriority.urgentImportant 1]))).map Todo.id
      = (getTodosByPriority TodoPriority.urgentImportant
          [sampleTodo "a" TodoPriority.urgentImportant 0,
           sampleTodo "b" TodoPriority.urgentImportant 1]).map Todo.id :=
  @reorder_same_roundtrip "a" TodoPriority.urgentImportant 0 1 2 3
    [sampleTodo "a" TodoPriority.urgentImportant 0,
     sampleTodo "b" TodoPriority.urgentImportant 1]
    (sampleTodo "a" TodoPriority.urgentImportant 0)
    (by decide) (by decide) rfl (by decide)

theorem normOrder_priority (t : Todo) : (normOrder t).priority = t.priority := rfl

theorem orderVal_normOrder (t : Todo) : orderVal (normOrder t) = orderVal t := rfl

theorem normOrder_of_some {t : Todo} {v : Int} (h : t.order = some v) : normOrder t = t := by
  cases t
  simp_all [normOrder, orderVal]

theorem setRO_normOrder (p : Option TodoPriority) (i : Nat) (now : Int) (t : Todo) :
    setRO p i now (normOrder t) = setRO p i now t := by
  cases t
  rfl

theorem normOrder_setRO (p : Option TodoPriority) (i : Nat) (now : Int) (t : Todo) :
    normOrder (setRO p i now t) = setRO p i now t :=
  normOrder_of_some rfl

theorem orderedInsert_map_norm (a : Todo) (l : List Todo) :
    List.orderedInsert todoLe (normOrder a) (l.map normOrder) =
      (List.orderedInsert todoLe a l).map normOrder := by
  induction l with
  | nil => rfl
  | cons b l ih =>
    simp only [List.orderedInsert, List.map_cons]
    by_cases h : todoLe a b
    · have h' : todoLe (normOrder a) (normOrder b) := h
      rw [if_pos h', if_pos h]
      rfl
    · have h' : ¬ todoLe (normOrder a) (normOrder b) := h
      rw [if_neg h', if_neg h, List.map_cons, ih]

theorem sortByOrder_map_norm (l : List Todo) :
    sortByOrder (l.map normOrder) = (sortByOrder l).map normOrder := by
  induction l with
  | nil => rfl
  | cons a l ih =>
    show List.orderedInsert todoLe (normOrder a)
        (List.insertionSort todoLe (l.map normOrder)) = _
    have ih' : List.insertionSort todoLe (l.map normOrder) =
        (List.insertionSort todoLe l).map normOrder := ih
    rw [ih']
    exact orderedInsert_map_norm a (List.insertionSort todoLe l)

theorem filter_priority_map_norm (p : TodoPriority) (s : List Todo) :
    (s.map normOrder).filter (fun t => t.priority = p) =
      (s.filter (fun t => t.priority = p)).map normOrder :=
  filter_map_of_priority_iff (fun u _ => by rw [normOrder_priority])

theorem getTodosByPriority_map_norm (p : TodoPriority) (s : List Todo) :
    getTodosByPriority p (s.map normOrder) = (getTodosByPriority p s).map normOrder := by
  unfold getTodosByPriority
  rw [filter_priority_map_norm]
  exact sortByOrder_map_norm _

theorem addTodo_map_norm (d : TodoFormValues) (fid : String) (now : Int) (s : List Todo) :
    addTodo d fid now (s.map normOrder) = (addTodo d fid now s).map normOrder := by
  simp only [addTodo]
  rw [filter_priority_map_norm, List.map_map]
  have hcomp : (orderVal ∘ normOrder) = orderVal := funext (fun t => orderVal_normOrder t)
  rw [hcomp, List.map_cons]
  rw [show ∀ u : Todo, normOrder u = { u with order := some (orderVal u) } from fun u => rfl]
  rfl

theorem updateFirstById_setRO_map_norm (tid : String) (p : Option TodoPriority) (i : Nat)
    (now : Int) (c : List Todo) :
    updateFirstById tid (setRO p i now) (c.map normOrder) =
      (updateFirstById tid (setRO p i now) c).map normOrder := by
  induction c with
  | nil => rfl
  | cons t ts ih =>
    simp only [List.map_cons, updateFirstById]
    have hni : (normOrder t).id = t.id := rfl
    rw [hni]
    by_cases h : t.id = tid
    · rw [if_pos h, if_pos h, setRO_normOrder, List.map_cons, normOrder_setRO]
    · rw [if_neg h, if_neg h, List.map_cons, ih]

theorem rewriteFrom_map_norm (p : Option TodoPriority) (now : Int) (i : Nat)
    (list c : List Todo) :
    rewriteFrom p now i (list.map normOrder) (c.map normOrder) =
      (rewriteFrom p now i list c).map normOrder := by
  induction list generalizing i c with
  | nil => rfl
  | cons t ts ih =>
    show rewriteFrom p now (i + 1) (ts.map normOrder)
        (updateFirstById (normOrder t).id (setRO p i now) (c.map normOrder)) = _
    have hni : (normOrder t).id = t.id := rfl
    rw [hni, updateFirstById_setRO_map_norm]
    exact ih (i + 1) (updateFirstById t.id (setRO p i now) c)

theorem spliceRemove_map_norm (i : Nat) (l : List Todo) :
    spliceRemove i (l.map normOrder) = (spliceRemove i l).map normOrder := by
  simp [spliceRemove, List.map_take, List.map_drop]

theorem spliceInsert_map_norm (i : Nat) (t : Todo) (l : List Todo) :
    spliceInsert i (normOrder t) (l.map normOrder) = (spliceInsert i t l).map normOrder := by
  simp [spliceInsert, List.map_take, List.map_drop]

theorem reorderTodo_map_norm (todoId : String) (sp dp : TodoPriority) (si di : Nat)
    (now : Int) (s : List Todo) :
    reorderTodo todoId sp dp si di now (s.map normOrder) =
      (reorderTodo todoId sp dp si di now s).map normOrder := by
  have hsrc := getTodosByPriority_map_norm sp s
  cases hget : (getTodosByPriority sp s)[si]? with
  | none =>
    have hget' : (getTodosByPriority sp (s.map normOrder))[si]? = none := by
      rw [hsrc, List.getElem?_map, hget]
      rfl
    rw [reorderTodo_noop_of_oob hget', reorderTodo_noop_of_oob hget]
  | some target =>
    have hget' : (getTodosByPriority sp (s.map normOrder))[si]? = some (normOrder target) := by
      rw [hsrc, List.getElem?_map, hget]
      rfl
    by_cases hid : target.id = todoId
    · have hid' : (normOrder target).id = todoId := hid
      by_cases hpq : sp = dp
      · subst hpq
        rw [reorderTodo_same_eq hget' hid', reorderTodo_same_eq hget hid]
        rw [hsrc, spliceRemove_map_norm, spliceInsert_map_norm]
        exact rewriteFrom_map_norm none now 0 _ s
      · rw [reorderTodo_cross_eq hget' hid' hpq, reorderTodo_cross_eq hget hid hpq]
        have hdst := getTodosByPriority_map_norm dp s
        rw [hsrc, hdst, spliceRemove_map_norm]
        have hmv : ({ normOrder target with priority := dp } : Todo) =
            normOrder { target with priority := dp } := by
          cases target
          rfl
        rw [hmv, spliceInsert_map_norm, rewriteFrom_map_norm]
        exact rewriteFrom_map_norm (some dp) now 0 _ _
    · have hid' : (normOrder target).id ≠ todoId := hid
      rw [reorderTodo_noop_of_mismatch hget' hid', reorderTodo_noop_of_mismatch hget hid]

/-- C10: every engine operation reads a task whose order field is absent as
having order 0 - the effective order of such a task is 0, and replacing every
absent order by an explicit 0 (normOrder) commutes with the quadrant read
projection, with create (whose maximum-order computation therefore counts the
absent order as 0), and with reorder (whose sorts read it as 0). -/
theorem absent_order_reads_zero (s : List Todo) :
    (∀ t : Todo, t.order = none → orderVal t = 0) ∧
    (∀ p : TodoPriority, getTodosByPriority p (s.map normOrder) =
      (getTodosByPriority p s).map normOrder) ∧
    (∀ (d : TodoFormValues) (fid : String) (now : Int),
      addTodo d fid now (s.map normOrder) = (addTodo d fid now s).map normOrder) ∧
    (∀ (todoId : String) (sp dp : TodoPriority) (si di : Nat) (now : Int),
      reorderTodo todoId sp dp si di now (s.map normOrder) =
        (reorderTodo todoId sp dp si di now s).map normOrder) := by
  refine ⟨?_, ?_, ?_, ?_⟩
  · intro t h
    simp [orderVal, h]
  · intro p
    exact getTodosByPriority_map_norm p s
  · intro d fid now
    exact addTodo_map_norm d fid now s
  · intro todoId sp dp si di now
    exact reorderTodo_map_norm todoId sp dp si di now s

theorem absent_order_reads_zero_witness :
    getTodosByPriority TodoPriority.urgentImportant
        (([{ sampleTodo "a" TodoPriority.urgentImportant 0 with order := none },
           sampleTodo "b" TodoPriority.urgentImportant 1]).map normOrder) =
      (getTodosByPriority TodoPriority.urgentImportant
        [{ sampleTodo "a" TodoPriority.urgentImportant 0 with order := none },
         sampleTodo "b" TodoPriority.urgentImportant 1]).map normOrder :=
  (absent_order_reads_zero
    [{ sampleTodo "a" TodoPriority.urgentImportant 0 with order := none },
     sampleTodo "b" TodoPriority.urgentImportant 1]).2.1 TodoPriority.urgentImportant

/-- Counterexample to C2 as stated: toggling an already-recorded sub-task id to
checked duplicates it; the length-based completion check then reports the day
complete although the second sub-task id is absent from the collection. -/
theorem toggleSubTask_counterexample :
    (handleSubTaskToggle c2Todo "d" "s1" true).isCompleted = true ∧
    ¬ (∀ st ∈ c2Todo.subTasks.getD [],
        st.id ∈ (handleSubTaskToggle c2Todo "d" "s1" true).completedSubTasks) := by
  decide

/-- C2 (amended): toggleSubTask appends the toggled id (checked) or removes
its occurrences (unchecked) and derives the day isCompleted by comparing
the length of the updated collection with the number of sub-tasks. Under the
invariants the checkbox UI maintains - the stored collection is a
duplicate-free subset of the sub-task ids of the task, those ids are distinct,
the toggled id is one of them, and a check is only issued for an id not
already stored - the flag is true exactly when the task has at least one
sub-task and every sub-task id is present in the updated collection; the
2-sub-task scenario of the claim follows. -/
theorem toggleSubTask_amended {todo : Todo} {dateKey subTaskId : String} {checked : Bool}
    (hsubnd : ((todo.subTasks.getD []).map SubTask.id).Nodup)
    (hmem : subTaskId ∈ (todo.subTasks.getD []).map SubTask.id)
    (hprevnd : (completedIdsFor todo dateKey).Nodup)
    (hprevsub : ∀ x ∈ completedIdsFor todo dateKey,
      x ∈ (todo.subTasks.getD []).map SubTask.id)
    (hchk : checked = true → subTaskId ∉ completedIdsFor todo dateKey) :
    (handleSubTaskToggle todo dateKey subTaskId checked).completedSubTasks =
      (if checked then completedIdsFor todo dateKey ++ [subTaskId]
       else (completedIdsFor todo dateKey).filter (fun i => i ≠ subTaskId)) ∧
    ((handleSubTaskToggle todo dateKey subTaskId checked).isCompleted = true ↔
      (todo.subTasks.getD [] ≠ [] ∧ ∀ st ∈ todo.subTasks.getD [],
        st.id ∈ (handleSubTaskToggle todo dateKey subTaskId checked).completedSubTasks)) := by
  refine ⟨rfl, ?_⟩
  have hflag : (handleSubTaskToggle todo dateKey subTaskId checked).isCompleted =
      decide (0 < (todo.subTasks.getD []).length ∧
        (if checked then completedIdsFor todo dateKey ++ [subTaskId]
         else (completedIdsFor todo dateKey).filter (fun i => i ≠ subTaskId)).length =
          (todo.subTasks.getD []).length) := rfl
  have hupd : (handleSubTaskToggle todo dateKey subTaskId checked).completedSubTasks =
      (if checked then completedIdsFor todo dateKey ++ [subTaskId]
       else (completedIdsFor todo dateKey).filter (fun i => i ≠ subTaskId)) := rfl
  rw [hflag, hupd, decide_eq_true_eq]
  have hcardS : ((todo.subTasks.getD []).map SubTask.id).toFinset.card =
      (todo.subTasks.getD []).length := by
    rw [List.toFinset_card_of_nodup hsubnd, List.length_map]
  cases checked with
  | true =>
    rw [if_pos rfl]
    have hnotin : subTaskId ∉ completedIdsFor todo dateKey := hchk rfl
    have hnd : (completedIdsFor todo dateKey ++ [subTaskId]).Nodup :=
      ((List.perm_append_singleton subTaskId (completedIdsFor todo dateKey)).nodup_iff).mpr
        (List.nodup_cons.mpr ⟨hnotin, hprevnd⟩)
    have hsub : ∀ x ∈ completedIdsFor todo dateKey ++ [subTaskId],
        x ∈ (todo.subTasks.getD []).map SubTask.id := by
      intro x hx
      rcases List.mem_append.mp hx with h | h
      · exact hprevsub x h
      · rw [List.mem_singleton.mp h]
        exact hmem
    have hcardU : (completedIdsFor todo dateKey ++ [subTaskId]).toFinset.card =
        (completedIdsFor todo dateKey ++ [subTaskId]).length :=
      List.toFinset_card_of_nodup hnd
    have hUS : (completedIdsFor todo dateKey ++ [subTaskId]).toFinset ⊆
        ((todo.subTasks.getD []).map SubTask.id).toFinset := by
      intro x hx
      exact List.mem_toFinset.mpr (hsub x (List.mem_toFinset.mp hx))
    constructor
    · rintro ⟨hpos, hlen⟩
      have hcards : (((todo.subTasks.getD []).map SubTask.id).toFinset).card ≤
          ((completedIdsFor todo dateKey ++ [subTaskId]).toFinset).card := by
        rw [hcardU, hlen, hcardS]
      have heq := Finset.eq_of_subset_of_card_le hUS hcards
      refine ⟨?_, ?_⟩
      · intro habs
        rw [habs] at hpos
        simp at hpos
      · intro st hst
        have : st.id ∈ ((todo.subTasks.getD []).map SubTask.id).toFinset :=
          List.mem_toFinset.mpr (List.mem_map_of_mem SubTask.id hst)
        rw [← heq] at this
        exact List.mem_toFinset.mp this
    · rintro ⟨hne, hcov⟩
      have hSU : ((todo.subTasks.getD []).map SubTask.id).toFinset ⊆
          (completedIdsFor todo dateKey ++ [subTaskId]).toFinset := by
        intro x hx
        obtain ⟨st, hst, hstid⟩ := List.mem_map.mp (List.mem_toFinset.mp hx)
        exact List.mem_toFinset.mpr (hstid ▸ hcov st hst)
      have heq : (completedIdsFor todo dateKey ++ [subTaskId]).toFinset =
          ((todo.subTasks.getD []).map SubTask.id).toFinset :=
        Finset.Subset.antisymm hUS hSU
      refine ⟨List.length_pos.mpr hne, ?_⟩
      rw [← hcardU, heq, hcardS]
  | false =>
    rw [if_neg (fun h => Bool.noConfusion h)]
    have hnotin : subTaskId ∉
        (completedIdsFor todo dateKey).filter (fun i => i ≠ subTaskId) := by
      intro hx
      have := List.of_mem_filter hx
      simp at this
    have hnd : ((completedIdsFor todo dateKey).filter (fun i => i ≠ subTaskId)).Nodup :=
      hprevnd.sublist (List.filter_sublist _)
    have hsub : ∀ x ∈ (completedIdsFor todo dateKey).filter (fun i => i ≠ subTaskId),
        x ∈ (todo.subTasks.getD []).map SubTask.id :=
      fun x hx => hprevsub x (List.mem_of_mem_filter hx)
    constructor
    · rintro ⟨hpos, hlen⟩
      exfalso
      have hcardU := List.toFinset_card_of_nodup hnd
      have hUS : ((completedIdsFor todo dateKey).filter
          (fun i => i ≠ subTaskId)).toFinset ⊆
          ((todo.subTasks.getD []).map SubTask.id).toFinset := by
        intro x hx
        exact List.mem_toFinset.mpr (hsub x (List.mem_toFinset.mp hx))
      have hcards : (((todo.subTasks.getD []).map SubTask.id).toFinset).card ≤
          (((completedIdsFor todo dateKey).filter (fun i => i ≠ subTaskId)).toFinset).card := by
        rw [hcardU, hlen, hcardS]
      have heq := Finset.eq_of_subset_of_card_le hUS hcards
      have : subTaskId ∈ ((completedIdsFor todo dateKey).filter
          (fun i => i ≠ subTaskId)).toFinset := by
        rw [heq]
        exact List.mem_toFinset.mpr hmem
      exact hnotin (List.mem_toFinset.mp this)
    · rintro ⟨hne, hcov⟩
      exfalso
      obtain ⟨st, hst, hstid⟩ := List.mem_map.mp hmem
      exact hnotin (hstid ▸ hcov st hst)

theorem toggleSubTask_amended_witness :
    (handleSubTaskToggle c2Todo "d" "s2" true).isCompleted = true ↔
      (c2Todo.subTasks.getD [] ≠ [] ∧ ∀ st ∈ c2Todo.subTasks.getD [],
        st.id ∈ (handleSubTaskToggle c2Todo "d" "s2" true).completedSubTasks) :=
  (toggleSubTask_amended (by decide) (by decide) (by decide) (by decide)
    (fun _ => by decide)).2

/-- C3: calculateCurrentStreak counts consecutive completed days walking
backward; the walk starts at today when today is completed and at today - 1
otherwise, every counted day is completed, the walk stops at the first day
without a completed record, and the result is 0 when the start day itself is
not completed. In particular, with day 0 and day 1 completed and today = day 2
not completed (2024-01-01 and 01-02 completed, today 2024-01-03), the streak
is 2. -/
theorem calculateCurrentStreak_spec :
    (∀ (p : List (Int × Bool)) (today : Int),
      (∀ k : Nat, k < calculateCurrentStreak (some p) today →
        lookupCompleted p
          ((if lookupCompleted p today then today else today - 1) - k) = true) ∧
      lookupCompleted p ((if lookupCompleted p today then today else today - 1) -
        calculateCurrentStreak (some p) today) = false ∧
      (lookupCompleted p (if lookupCompleted p today then today else today - 1) = false →
        calculateCurrentStreak (some p) today = 0)) ∧
    (∀ today : Int, calculateCurrentStreak none today = 0) ∧
    calculateCurrentStreak (some [(0, true), (1, true), (2, false)]) 2 = 2 := by
  refine ⟨?_, fun _ => rfl, ?_⟩
  · intro p today
    have hs := streakFrom_spec p (if lookupCompleted p today then today else today - 1)
    have hcalc : calculateCurrentStreak (some p) today =
        streakFrom p (if lookupCompleted p today then today else today - 1) := rfl
    rw [hcalc]
    refine ⟨hs.1, hs.2, ?_⟩
    intro h
    rw [streakFrom, dif_neg (by simp [h])]
  · have hl2 : lookupCompleted [(0, true), (1, true), (2, false)] 2 = false := by decide
    have hl1 : lookupCompleted [(0, true), (1, true), (2, false)] 1 = true := by decide
    have hl0 : lookupCompleted [(0, true), (1, true), (2, false)] 0 = true := by decide
    have hlm : lookupCompleted [(0, true), (1, true), (2, false)] (-1) = false := by decide
    have hm1 : streakFrom [(0, true), (1, true), (2, false)] (-1) = 0 := by
      rw [streakFrom, dif_neg (by simp [hlm])]
    have h0 : streakFrom [(0, true), (1, true), (2, false)] 0 = 1 := by
      rw [streakFrom, dif_pos hl0]
      norm_num [hm1]
    have h1 : streakFrom [(0, true), (1, true), (2, false)] 1 = 2 := by
      rw [streakFrom, dif_pos hl1]
      norm_num [h0]
    have hcalc : calculateCurrentStreak (some [(0, true), (1, true), (2, false)]) 2 =
        streakFrom [(0, true), (1, true), (2, false)]
          (if lookupCompleted [(0, true), (1, true), (2, false)] 2 then 2 else 2 - 1) := rfl
    rw [hcalc, hl2]
    norm_num [h1]

end TodoApp

